import Mathlib

/-!
Verification development for the dynamic pairwise-relation store ("BondData")
of this HOOMD-blue snapshot.

The shallow embedding below follows src/libhoomd/data_structures/BondData.h.
The class stores bonds in dense arrays (m_bonds, m_bond_type, m_tags), keeps a
reverse-lookup table m_bond_rtag mapping a bond tag to its current dense index
(with sentinel NO_BOND = 0xffffffff for dead tags), recycles deleted tags
through the std::stack m_deleted_tags, and lazily mirrors the bond list into an
owner-major GPU table guarded by the m_bonds_dirty flag.

GPUVector / GPUArray fields are embedded as Lean lists; unsigned int values are
embedded as Nat (overflow is immaterial below the 32-bit sentinel, and the
invariant developed here tracks the required bound count < NO_BOND explicitly).
Method bodies that live in BondData.cc are not part of the sources provided
(only BondData.h is); those definitions are marked "Modelled from the spec"
and follow the specification text, constrained by the declarations of
BondData.h (in particular the recycle pool is a std::stack, so only its most
recently pushed element can be popped).
-/

/-- List access helper fact: getD on an append stays in the left part. -/
theorem lgetD_append_left {α : Type} (l l2 : List α) (d : α) (i : Nat)
    (h : i < l.length) : (l ++ l2).getD i d = l.getD i d := by
  induction l generalizing i with
  | nil => simp at h
  | cons a t ih =>
    cases i with
    | zero => rfl
    | succ j =>
      simp only [List.cons_append, List.getD_cons_succ]
      exact ih j (Nat.lt_of_succ_lt_succ h)

/-- List access helper fact: getD just past the left part of an append with a
singleton reads the appended element. -/
theorem lgetD_append_self {α : Type} (l : List α) (x d : α) :
    (l ++ [x]).getD l.length d = x := by
  induction l with
  | nil => rfl
  | cons a t ih => simp only [List.cons_append, List.length_cons, List.getD_cons_succ, ih]

/-- List access helper fact: getD at the position just set. -/
theorem lgetD_set_self {α : Type} (l : List α) (i : Nat) (x d : α)
    (h : i < l.length) : (l.set i x).getD i d = x := by
  induction l generalizing i with
  | nil => simp at h
  | cons a t ih =>
    cases i with
    | zero => rfl
    | succ j =>
      simp only [List.set_cons_succ, List.getD_cons_succ]
      exact ih j (Nat.lt_of_succ_lt_succ h)

/-- List access helper fact: getD away from the position just set. -/
theorem lgetD_set_ne {α : Type} (l : List α) (i j : Nat) (x d : α)
    (h : i ≠ j) : (l.set i x).getD j d = l.getD j d := by
  induction l generalizing i j with
  | nil => rfl
  | cons a t ih =>
    cases i with
    | zero =>
      cases j with
      | zero => exact absurd rfl h
      | succ k => rfl
    | succ i2 =>
      cases j with
      | zero => rfl
      | succ k =>
        simp only [List.set_cons_succ, List.getD_cons_succ]
        exact ih i2 k (fun hik => h (congrArg Nat.succ hik))

/-- List access helper fact: getD inside the dropLast part of a list. -/
theorem lgetD_dropLast {α : Type} (l : List α) (d : α) (i : Nat)
    (h : i + 1 < l.length) : l.dropLast.getD i d = l.getD i d := by
  induction l generalizing i with
  | nil => rfl
  | cons a t ih =>
    cases t with
    | nil => simp at h
    | cons b t2 =>
      cases i with
      | zero => rfl
      | succ j =>
        simp only [List.dropLast_cons₂, List.getD_cons_succ]
        exact ih j (Nat.lt_of_succ_lt_succ h)

/-- List access helper fact: getD on List.range. -/
theorem lgetD_range (n i d : Nat) (h : i < n) : (List.range n).getD i d = i := by
  induction n with
  | zero => simp at h
  | succ m ih =>
    rw [List.range_succ]
    rcases Nat.lt_or_ge i m with h2 | h2
    · rw [lgetD_append_left _ _ _ _ (by simpa using h2)]
      exact ih h2
    · have hi : i = m := Nat.le_antisymm (Nat.lt_succ_iff.mp h) h2
      subst hi
      have hl : (List.range i).length = i := List.length_range i
      calc (List.range i ++ [i]).getD i d
          = (List.range i ++ [i]).getD (List.range i).length d := by rw [hl]
        _ = i := lgetD_append_self _ _ _

/-- List access helper fact: getD on a map over List.range. -/
theorem lgetD_map_range {α : Type} (f : Nat → α) (n i : Nat) (d : α)
    (h : i < n) : ((List.range n).map f).getD i d = f i := by
  induction n with
  | zero => simp at h
  | succ m ih =>
    rw [List.range_succ, List.map_append]
    rcases Nat.lt_or_ge i m with h2 | h2
    · rw [lgetD_append_left _ _ _ _ (by simpa using h2)]
      exact ih h2
    · have hi : i = m := Nat.le_antisymm (Nat.lt_succ_iff.mp h) h2
      subst hi
      have hl : ((List.range i).map f).length = i := by simp
      calc ((List.range i).map f ++ [f i]).getD i d
          = ((List.range i).map f ++ [f i]).getD ((List.range i).map f).length d := by
            rw [hl]
        _ = f i := lgetD_append_self _ _ _

/-- List access helper fact: getD on replicate. -/
theorem lgetD_replicate {α : Type} (n i : Nat) (x d : α) (h : i < n) :
    (List.replicate n x).getD i d = x := by
  induction n generalizing i with
  | zero => simp at h
  | succ m ih =>
    cases i with
    | zero => rfl
    | succ j =>
      simp only [List.replicate_succ, List.getD_cons_succ]
      exact ih j (Nat.lt_of_succ_lt_succ h)

/-- Extensionality for lists of equal length through getD at a fixed default. -/
theorem list_ext_getD {α : Type} (l1 l2 : List α) (d : α)
    (hlen : l1.length = l2.length)
    (h : ∀ i, i < l1.length → l1.getD i d = l2.getD i d) : l1 = l2 := by
  induction l1 generalizing l2 with
  | nil =>
    cases l2 with
    | nil => rfl
    | cons b t => simp at hlen
  | cons a t ih =>
    cases l2 with
    | nil => simp at hlen
    | cons b t2 =>
      have h0 : a = b := h 0 (Nat.succ_pos _)
      have ht : t = t2 := by
        refine ih t2 (by simpa using hlen) ?_
        intro i hi
        exact h (i + 1) (Nat.succ_lt_succ hi)
      rw [h0, ht]

/-- Sentinel value in the bond reverse-lookup map for unassigned bond tags,
from BondData.h: #define NO_BOND 0xffffffff. -/
def NO_BOND : Nat := 0xffffffff

/-- Error taxonomy of the specification (section 7). -/
inductive TableError where
  | NotFound
  | InvalidType
  | IndexOutOfRange
  | ImmutableViolation
deriving DecidableEq, Repr

/-- A bond between two particles, from BondData.h: an integer type and the
tags of the two bonded particles. -/
structure Bond where
  type : Nat
  a : Nat
  b : Nat
deriving DecidableEq, Repr

/-- Snapshot structure for bulk import/export, from BondData.h
(SnapshotBondData): per-bond type ids, per-bond particle-tag pairs, and the
bond type names. -/
structure SnapshotBondData where
  type_id : List Nat
  bonds : List (Nat × Nat)
  type_mapping : List String
deriving DecidableEq, Repr

/-- State of the BondData class, one field per data member of BondData.h.
GPUVector / GPUArray / std::vector fields become lists; the std::stack
m_deleted_tags becomes a list whose head is the stack top; the 2D GPUArray
m_gpu_bondlist becomes a list of owner columns together with its height. -/
structure BondData where
  n_bond_types : Nat
  bonds_dirty : Bool
  bonds : List (Nat × Nat)
  bond_type : List Nat
  tags : List Nat
  deleted_tags : List Nat
  bond_rtag : List Nat
  bond_type_mapping : List String
  gpu_bondlist : List (List (Nat × Nat))
  n_bonds : List Nat
  gpu_height : Nat
deriving DecidableEq, Repr

/-- Number of bonds present, from BondData.h getNumBonds: the size of
m_bonds. -/
def getNumBonds (s : BondData) : Nat := s.bonds.length

/-- Number of bond types, from BondData.h getNBondTypes. -/
def getNBondTypes (s : BondData) : Nat := s.n_bond_types

/-- Bounds-checked dense access, from BondData.h getBond: the body asserts
i < m_bonds.size() and i < m_bond_type.size() and then reads both arrays; an
index failing the bounds is the spec's IndexOutOfRange failure. -/
def getBond (s : BondData) (i : Nat) : Except TableError Bond :=
  if i < s.bonds.length ∧ i < s.bond_type.length then
    .ok ⟨s.bond_type.getD i 0, (s.bonds.getD i (0, 0)).1, (s.bonds.getD i (0, 0)).2⟩
  else .error .IndexOutOfRange

/-- Reverse lookup of a tag in m_bond_rtag. A tag beyond the table s bounds
was never issued and reads as the sentinel NO_BOND. -/
def rtagLookup (s : BondData) (tag : Nat) : Nat :=
  s.bond_rtag.getD tag NO_BOND

/-- Modelled from the spec: BondData::getBondByTag (body in BondData.cc, not
among the sources). Per spec 4.1, it resolves the tag through the TagIndex
(m_bond_rtag) and fails NotFound if the entry is the sentinel; a live entry is
a dense index, read through the bounds-checked dense accessor. -/
def getBondByTag (s : BondData) (tag : Nat) : Except TableError Bond :=
  let id := rtagLookup s tag
  if id = NO_BOND then .error .NotFound
  else getBond s id

/-- Modelled from the spec: BondData::addBond (body in BondData.cc, not among
the sources). Per spec 4.1/4.2 it validates the type (else InvalidType),
issues a tag — popping the recycle pool if non-empty, else the next sequential
integer with a new reverse-lookup entry — appends the pair and type to the
dense arrays, records TagIndex[tag] = new index, and marks dirty. The recycle
pool is the std::stack m_deleted_tags declared in BondData.h, so the popped
element is necessarily the most recently pushed one (its top). -/
def addBond (s : BondData) (bond : Bond) : Except TableError (Nat × BondData) :=
  if s.n_bond_types ≤ bond.type then .error .InvalidType
  else
    match s.deleted_tags with
    | tag :: rest =>
        .ok (tag, { s with
          deleted_tags := rest,
          bond_rtag := s.bond_rtag.set tag s.bonds.length,
          tags := s.tags ++ [tag],
          bonds := s.bonds ++ [(bond.a, bond.b)],
          bond_type := s.bond_type ++ [bond.type],
          bonds_dirty := true })
    | [] =>
        .ok (s.bonds.length, { s with
          bond_rtag := s.bond_rtag ++ [s.bonds.length],
          tags := s.tags ++ [s.bonds.length],
          bonds := s.bonds ++ [(bond.a, bond.b)],
          bond_type := s.bond_type ++ [bond.type],
          bonds_dirty := true })

/-- Modelled from the spec: BondData::removeBond (body in BondData.cc, not
among the sources). Per spec 4.1: fail NotFound if the tag is out of range of
the TagIndex or its entry is the sentinel; otherwise set the entry to the
sentinel, and if the dense slot being vacated is not the last one, copy the
last relation into it and redirect the moved relation s TagIndex entry; then
truncate the dense arrays by one, push the tag onto the recycle stack, and
mark dirty. -/
def removeBond (s : BondData) (tag : Nat) : Except TableError BondData :=
  let id := rtagLookup s tag
  if id = NO_BOND then .error .NotFound
  else
    let size := s.bonds.length
    let rtag1 := s.bond_rtag.set tag NO_BOND
    if id < size - 1 then
      let last_tag := s.tags.getD (size - 1) 0
      .ok { s with
        bonds := (s.bonds.set id (s.bonds.getD (size - 1) (0, 0))).dropLast,
        bond_type := (s.bond_type.set id (s.bond_type.getD (size - 1) 0)).dropLast,
        tags := (s.tags.set id last_tag).dropLast,
        bond_rtag := rtag1.set last_tag id,
        deleted_tags := tag :: s.deleted_tags,
        bonds_dirty := true }
    else
      .ok { s with
        bonds := s.bonds.dropLast,
        bond_type := s.bond_type.dropLast,
        tags := s.tags.dropLast,
        bond_rtag := rtag1,
        deleted_tags := tag :: s.deleted_tags,
        bonds_dirty := true }

/-- Helper from BondData.h setDirty: sets m_bonds_dirty; this is also the
receiver of the particle-resort signal m_sort_connection. -/
def setDirty (s : BondData) : BondData :=
  { s with bonds_dirty := true }

/-- Modelled from the spec: BondData::takeSnapshot (body in BondData.cc, not
among the sources). Per spec 4.6, the export is one entry per dense relation
in current dense order, plus the type names. -/
def takeSnapshot (s : BondData) : SnapshotBondData :=
  { type_id := s.bond_type, bonds := s.bonds, type_mapping := s.bond_type_mapping }

/-- One import step: re-add one snapshot entry (type, (a, b)) through the
normal add path, an add failure leaving the state unchanged. -/
def addStep (s : BondData) (e : Nat × Nat × Nat) : BondData :=
  match addBond s ⟨e.1, e.2.1, e.2.2⟩ with
  | .ok p => p.2
  | .error _ => s

/-- Modelled from the spec: BondData::initializeFromSnapshot (body in
BondData.cc, not among the sources). Per spec 4.6: clears the table, rebuilds
the type catalog from the snapshot names, re-adds every relation via the
normal add path (tags reassigned from scratch, sequentially), and marks
dirty. The fixed number of bond types (const in BondData.h) is unchanged. -/
def initializeFromSnapshot (s : BondData) (snap : SnapshotBondData) : BondData :=
  let s0 : BondData := { s with
    bonds := [], bond_type := [], tags := [], deleted_tags := [], bond_rtag := [],
    bond_type_mapping := snap.type_mapping }
  let s1 := (snap.type_id.zip snap.bonds).foldl addStep s0
  { s1 with bonds_dirty := true }

/-- Pass-1 step of the mirror rebuild: increment the per-owner bond counter
of one owner. -/
def bump (cnt : List Nat) (o : Nat) : List Nat :=
  cnt.set o (cnt.getD o 0 + 1)

/-- Modelled from the spec: pass 1 of the AdjacencyMirror rebuild (spec 4.5,
realized by BondData::updateBondTable in BondData.cc, not among the sources):
for every relation, increment a per-owner degree counter for both
participants. -/
def degCounts (numOwners : Nat) (entries : List ((Nat × Nat) × Nat)) : List Nat :=
  entries.foldl (fun cnt e => bump (bump cnt e.1.1) e.1.2) (List.replicate numOwners 0)

/-- Pass-2 step of the mirror rebuild: append one (partner, type) cell to one
owner s column. -/
def pushCol (cols : List (List (Nat × Nat))) (o : Nat) (cell : Nat × Nat) :
    List (List (Nat × Nat)) :=
  cols.set o (cols.getD o [] ++ [cell])

/-- Modelled from the spec: pass 2 of the AdjacencyMirror rebuild (spec 4.5):
for every relation, for each of its two participants, place (partner, type)
into the next free row of that owner s column. -/
def mirrorColumns (numOwners : Nat) (entries : List ((Nat × Nat) × Nat)) :
    List (List (Nat × Nat)) :=
  entries.foldl (fun cols e => pushCol (pushCol cols e.1.1 (e.1.2, e.2)) e.1.2 (e.1.1, e.2))
    (List.replicate numOwners [])

/-- Modelled from the spec: BondData::updateBondTable (body in BondData.cc,
not among the sources). Rebuilds the owner-major mirror per spec 4.5: pass 1
computes the per-owner bond counts (m_n_bonds) and the height is their
maximum; pass 2 fills the owner-major table (m_gpu_bondlist). The number of
owners (particles) comes from the particle data collaborator and is a
parameter here. -/
def updateBondTable (numOwners : Nat) (s : BondData) : BondData :=
  let entries := s.bonds.zip s.bond_type
  let counts := degCounts numOwners entries
  { s with
    n_bonds := counts,
    gpu_height := counts.foldl Nat.max 0,
    gpu_bondlist := mirrorColumns numOwners entries }

/-- Modelled from the spec: BondData::getGPUBondList (body in BondData.cc,
not among the sources). Per spec 2/4.4/4.5: if the dirty flag is set, rebuild
the mirror and clear the flag; otherwise return the existing table. -/
def getGPUBondList (numOwners : Nat) (s : BondData) : BondData :=
  if s.bonds_dirty then
    { updateBondTable numOwners s with bonds_dirty := false }
  else s

/-- Constructor state, from BondData.h / spec 4.4: empty arrays and the dirty
flag initially true (forcing the first mirror build). -/
def BondData.init (n_bond_types : Nat) (tm : List String) : BondData :=
  { n_bond_types := n_bond_types, bonds_dirty := true, bonds := [], bond_type := [],
    tags := [], deleted_tags := [], bond_rtag := [], bond_type_mapping := tm,
    gpu_bondlist := [], n_bonds := [], gpu_height := 0 }

/-- A mutation request against the table: one add or one remove. -/
inductive Op where
  | add (b : Bond)
  | remove (tag : Nat)
deriving DecidableEq, Repr

/-- Apply one operation; a failing operation leaves the table unchanged
(spec 7: errors do not leave the table partially mutated). -/
def applyOp (s : BondData) (op : Op) : BondData :=
  match op with
  | .add b =>
    match addBond s b with
    | .ok p => p.2
    | .error _ => s
  | .remove tg =>
    match removeBond s tg with
    | .ok s2 => s2
    | .error _ => s

/-- Apply a sequence of operations in order. -/
def applyOps (s : BondData) (ops : List Op) : BondData :=
  ops.foldl applyOp s

/-- Consistency invariant of the store, from the data-model invariants of
spec section 3: dense arrays are index-aligned; the TagIndex size counts all
tags ever issued (live plus recycled); a live TagIndex entry and the tag
array are mutually inverse; recycled tags read as the sentinel; the recycle
stack holds no duplicates; all stored types are valid; and the bond count is
below the 32-bit sentinel so dense indices never collide with it. -/
def Wf (s : BondData) : Prop :=
  s.bond_type.length = s.bonds.length ∧
  s.tags.length = s.bonds.length ∧
  s.bonds.length + s.deleted_tags.length = s.bond_rtag.length ∧
  s.bonds.length < NO_BOND ∧
  (∀ i, i < s.bonds.length →
      s.tags.getD i 0 < s.bond_rtag.length ∧
      s.bond_rtag.getD (s.tags.getD i 0) NO_BOND = i ∧
      s.bond_type.getD i 0 < s.n_bond_types) ∧
  (∀ tg, tg < s.bond_rtag.length → s.bond_rtag.getD tg NO_BOND ≠ NO_BOND →
      s.bond_rtag.getD tg NO_BOND < s.bonds.length ∧
      s.tags.getD (s.bond_rtag.getD tg NO_BOND) 0 = tg) ∧
  (∀ tg, tg ∈ s.deleted_tags →
      tg < s.bond_rtag.length ∧ s.bond_rtag.getD tg NO_BOND = NO_BOND) ∧
  s.deleted_tags.Nodup

instance (s : BondData) : Decidable (Wf s) := by
  unfold Wf
  infer_instance

example : Wf (BondData.init 2 ["A", "B"]) := by decide

/-- List access helper fact: getD out of range gives the default. -/
theorem lgetD_ge {α : Type} (l : List α) (d : α) (i : Nat) (h : l.length ≤ i) :
    l.getD i d = d := by
  induction l generalizing i with
  | nil => rfl
  | cons a t ih =>
    cases i with
    | zero => simp at h
    | succ j =>
      simp only [List.getD_cons_succ]
      exact ih j (Nat.le_of_succ_le_succ h)

/-- A live reverse-lookup entry implies the tag is within the TagIndex. -/
theorem rtagLookup_lt (s : BondData) (t : Nat) (h : rtagLookup s t ≠ NO_BOND) :
    t < s.bond_rtag.length := by
  by_contra h2
  exact h (lgetD_ge _ _ _ (Nat.le_of_not_lt h2))

/-- Unfolding of addBond when the recycle pool is non-empty: the popped tag is
the stack top. -/
theorem addBond_pool (s : BondData) (b : Bond) (tg : Nat) (rest : List Nat)
    (hty : b.type < s.n_bond_types) (hpool : s.deleted_tags = tg :: rest) :
    addBond s b = .ok (tg, { s with
      deleted_tags := rest,
      bond_rtag := s.bond_rtag.set tg s.bonds.length,
      tags := s.tags ++ [tg],
      bonds := s.bonds ++ [(b.a, b.b)],
      bond_type := s.bond_type ++ [b.type],
      bonds_dirty := true }) := by
  unfold addBond
  rw [if_neg (Nat.not_le.mpr hty), hpool]

/-- Unfolding of addBond when the recycle pool is empty: the issued tag is the
next sequential integer. -/
theorem addBond_fresh (s : BondData) (b : Bond)
    (hty : b.type < s.n_bond_types) (hpool : s.deleted_tags = []) :
    addBond s b = .ok (s.bonds.length, { s with
      bond_rtag := s.bond_rtag ++ [s.bonds.length],
      tags := s.tags ++ [s.bonds.length],
      bonds := s.bonds ++ [(b.a, b.b)],
      bond_type := s.bond_type ++ [b.type],
      bonds_dirty := true }) := by
  unfold addBond
  rw [if_neg (Nat.not_le.mpr hty), hpool]

/-- A successful addBond has a valid type. -/
theorem addBond_type_lt (s : BondData) (b : Bond) (tg : Nat) (s2 : BondData)
    (h : addBond s b = .ok (tg, s2)) : b.type < s.n_bond_types := by
  by_contra hty
  unfold addBond at h
  rw [if_pos (Nat.le_of_not_lt hty)] at h
  exact absurd h (by simp)

/-- List access helper fact: getD at an index equal to the left length of an
append with a singleton. -/
theorem lgetD_append_at {α : Type} (l : List α) (x d : α) (i : Nat)
    (h : i = l.length) : (l ++ [x]).getD i d = x := by
  subst h
  exact lgetD_append_self l x d

/-- Invariant preservation and basic frame facts for a successful addBond. -/
theorem Wf_addBond (s : BondData) (b : Bond) (tg : Nat) (s2 : BondData)
    (hwf : Wf s) (hcap : s.bonds.length + 1 < NO_BOND)
    (h : addBond s b = .ok (tg, s2)) :
    Wf s2 ∧ s2.bonds.length = s.bonds.length + 1 ∧
      s2.n_bond_types = s.n_bond_types := by
  obtain ⟨h1, h2, h3, h4, h5, h6, h7, h8⟩ := hwf
  have hty : b.type < s.n_bond_types := addBond_type_lt s b tg s2 h
  cases hpool : s.deleted_tags with
  | cons tg0 rest =>
    rw [addBond_pool s b tg0 rest hty hpool, Except.ok.injEq, Prod.mk.injEq] at h
    obtain ⟨h9, h10⟩ := h
    subst h10
    subst h9
    have htg_mem : tg0 ∈ s.deleted_tags := by rw [hpool]; exact List.mem_cons_self _ _
    have htg_lt : tg0 < s.bond_rtag.length := (h7 tg0 htg_mem).1
    have htg_dead : s.bond_rtag.getD tg0 NO_BOND = NO_BOND := (h7 tg0 htg_mem).2
    have hnodup : tg0 ∉ rest := by
      rw [hpool] at h8
      exact (List.nodup_cons.mp h8).1
    refine ⟨⟨?_, ?_, ?_, ?_, ?_, ?_, ?_, ?_⟩, ?_, ?_⟩
    · dsimp only; simp [h1]
    · dsimp only; simp [h2]
    · dsimp only
      simp only [List.length_append, List.length_set, List.length_cons, List.length_nil]
      rw [hpool] at h3
      simp only [List.length_cons] at h3
      omega
    · dsimp only
      simp only [List.length_append, List.length_cons, List.length_nil]
      omega
    · dsimp only
      intro i hi
      simp only [List.length_append, List.length_cons, List.length_nil] at hi
      rcases Nat.lt_or_ge i s.bonds.length with hlt | hge
      · have htags : (s.tags ++ [tg0]).getD i 0 = s.tags.getD i 0 :=
          lgetD_append_left _ _ _ _ (by omega)
        have hne : s.tags.getD i 0 ≠ tg0 := by
          intro he
          have hx := (h5 i hlt).2.1
          rw [he, htg_dead] at hx
          omega
        refine ⟨?_, ?_, ?_⟩
        · rw [htags]
          simp only [List.length_set]
          exact (h5 i hlt).1
        · rw [htags, lgetD_set_ne _ _ _ _ _ (fun he => hne he.symm)]
          exact (h5 i hlt).2.1
        · rw [lgetD_append_left _ _ _ _ (by omega)]
          exact (h5 i hlt).2.2
      · have hieq : i = s.bonds.length := by omega
        subst hieq
        have htags : (s.tags ++ [tg0]).getD s.bonds.length 0 = tg0 :=
          lgetD_append_at _ _ _ _ h2.symm
        refine ⟨?_, ?_, ?_⟩
        · rw [htags]
          simp only [List.length_set]
          exact htg_lt
        · rw [htags, lgetD_set_self _ _ _ _ htg_lt]
        · rw [lgetD_append_at _ _ _ _ h1.symm]
          exact hty
    · dsimp only
      intro tg2 htg2 hne
      simp only [List.length_set] at htg2
      simp only [List.length_append, List.length_cons, List.length_nil]
      by_cases he : tg2 = tg0
      · subst he
        rw [lgetD_set_self _ _ _ _ htg_lt] at hne ⊢
        exact ⟨by omega, lgetD_append_at _ _ _ _ h2.symm⟩
      · rw [lgetD_set_ne _ _ _ _ _ (fun hx => he hx.symm)] at hne ⊢
        obtain ⟨hb, ht⟩ := h6 tg2 htg2 hne
        refine ⟨by omega, ?_⟩
        rw [lgetD_append_left _ _ _ _ (by omega), ht]
    · dsimp only
      intro d hd
      have hd2 : d ∈ s.deleted_tags := by rw [hpool]; exact List.mem_cons_of_mem _ hd
      have hne : d ≠ tg0 := fun he => hnodup (he ▸ hd)
      refine ⟨?_, ?_⟩
      · simp only [List.length_set]
        exact (h7 d hd2).1
      · rw [lgetD_set_ne _ _ _ _ _ (fun hx => hne hx.symm)]
        exact (h7 d hd2).2
    · dsimp only
      rw [hpool] at h8
      exact (List.nodup_cons.mp h8).2
    · dsimp only
      simp
    · rfl
  | nil =>
    rw [addBond_fresh s b hty hpool, Except.ok.injEq, Prod.mk.injEq] at h
    obtain ⟨h9, h10⟩ := h
    subst h10
    subst h9
    have hrlen : s.bonds.length = s.bond_rtag.length := by
      rw [hpool] at h3
      simpa using h3
    refine ⟨⟨?_, ?_, ?_, ?_, ?_, ?_, ?_, ?_⟩, ?_, ?_⟩
    · dsimp only; simp [h1]
    · dsimp only; simp [h2]
    · dsimp only
      rw [hpool]
      simp [hrlen]
    · dsimp only
      simp only [List.length_append, List.length_cons, List.length_nil]
      omega
    · dsimp only
      intro i hi
      simp only [List.length_append, List.length_cons, List.length_nil] at hi
      simp only [List.length_append, List.length_cons, List.length_nil]
      rcases Nat.lt_or_ge i s.bonds.length with hlt | hge
      · have htags : (s.tags ++ [s.bonds.length]).getD i 0 = s.tags.getD i 0 :=
          lgetD_append_left _ _ _ _ (by omega)
        refine ⟨?_, ?_, ?_⟩
        · rw [htags]
          have hx := (h5 i hlt).1
          omega
        · rw [htags, lgetD_append_left _ _ _ _ (h5 i hlt).1]
          exact (h5 i hlt).2.1
        · rw [lgetD_append_left _ _ _ _ (by omega)]
          exact (h5 i hlt).2.2
      · have hieq : i = s.bonds.length := by omega
        subst hieq
        have htags : (s.tags ++ [s.bonds.length]).getD s.bonds.length 0 = s.bonds.length :=
          lgetD_append_at _ _ _ _ h2.symm
        refine ⟨?_, ?_, ?_⟩
        · rw [htags]
          omega
        · rw [htags, lgetD_append_at _ _ _ _ hrlen]
        · rw [lgetD_append_at _ _ _ _ h1.symm]
          exact hty
    · dsimp only
      intro tg2 htg2 hne
      simp only [List.length_append, List.length_cons, List.length_nil] at htg2
      by_cases he : tg2 = s.bond_rtag.length
      · subst he
        rw [lgetD_append_at _ _ _ _ rfl] at hne ⊢
        refine ⟨by simp, ?_⟩
        rw [lgetD_append_at _ _ _ _ h2.symm]
        exact hrlen
      · have htg2lt : tg2 < s.bond_rtag.length := by omega
        rw [lgetD_append_left _ _ _ _ htg2lt] at hne ⊢
        obtain ⟨hb, ht⟩ := h6 tg2 htg2lt hne
        refine ⟨by simp only [List.length_append, List.length_cons, List.length_nil]; omega, ?_⟩
        rw [lgetD_append_left _ _ _ _ (by omega), ht]
    · dsimp only
      intro d hd
      rw [hpool] at hd
      simp at hd
    · dsimp only
      rw [hpool]
      exact List.nodup_nil
    · dsimp only
      simp
    · rfl

/-- A successful addBond leaves every live tag resolving to the same bond. -/
theorem getBondByTag_addBond (s : BondData) (b : Bond) (tg t : Nat) (s2 : BondData)
    (hwf : Wf s) (h : addBond s b = .ok (tg, s2)) (ht : rtagLookup s t ≠ NO_BOND) :
    getBondByTag s2 t = getBondByTag s t := by
  obtain ⟨h1, h2, h3, h4, h5, h6, h7, h8⟩ := hwf
  have hty := addBond_type_lt s b tg s2 h
  have htlt : t < s.bond_rtag.length := rtagLookup_lt s t ht
  simp only [rtagLookup] at ht
  obtain ⟨hidlt, htagid⟩ := h6 t htlt ht
  cases hpool : s.deleted_tags with
  | cons tg0 rest =>
    rw [addBond_pool s b tg0 rest hty hpool, Except.ok.injEq, Prod.mk.injEq] at h
    obtain ⟨h9, h10⟩ := h
    subst h10
    have htne : t ≠ tg0 := by
      intro he
      rw [he, (h7 tg0 (by rw [hpool]; exact List.mem_cons_self _ _)).2] at ht
      exact ht rfl
    simp only [getBondByTag, rtagLookup, getBond]
    rw [lgetD_set_ne s.bond_rtag tg0 t s.bonds.length NO_BOND (fun hx => htne hx.symm)]
    rw [if_neg ht, if_neg ht]
    have hc1 : s.bond_rtag.getD t NO_BOND < (s.bonds ++ [(b.a, b.b)]).length ∧
        s.bond_rtag.getD t NO_BOND < (s.bond_type ++ [b.type]).length := by
      constructor
      · simp only [List.length_append, List.length_cons, List.length_nil]; omega
      · simp only [List.length_append, List.length_cons, List.length_nil]; omega
    have hc2 : s.bond_rtag.getD t NO_BOND < s.bonds.length ∧
        s.bond_rtag.getD t NO_BOND < s.bond_type.length := ⟨hidlt, by omega⟩
    rw [if_pos hc1, if_pos hc2]
    rw [lgetD_append_left s.bond_type [b.type] 0 (s.bond_rtag.getD t NO_BOND) (by omega),
      lgetD_append_left s.bonds [(b.a, b.b)] (0, 0) (s.bond_rtag.getD t NO_BOND) hidlt]
  | nil =>
    rw [addBond_fresh s b hty hpool, Except.ok.injEq, Prod.mk.injEq] at h
    obtain ⟨h9, h10⟩ := h
    subst h10
    simp only [getBondByTag, rtagLookup, getBond]
    rw [lgetD_append_left s.bond_rtag [s.bonds.length] NO_BOND t htlt]
    rw [if_neg ht, if_neg ht]
    have hc1 : s.bond_rtag.getD t NO_BOND < (s.bonds ++ [(b.a, b.b)]).length ∧
        s.bond_rtag.getD t NO_BOND < (s.bond_type ++ [b.type]).length := by
      constructor
      · simp only [List.length_append, List.length_cons, List.length_nil]; omega
      · simp only [List.length_append, List.length_cons, List.length_nil]; omega
    have hc2 : s.bond_rtag.getD t NO_BOND < s.bonds.length ∧
        s.bond_rtag.getD t NO_BOND < s.bond_type.length := ⟨hidlt, by omega⟩
    rw [if_pos hc1, if_pos hc2]
    rw [lgetD_append_left s.bond_type [b.type] 0 (s.bond_rtag.getD t NO_BOND) (by omega),
      lgetD_append_left s.bonds [(b.a, b.b)] (0, 0) (s.bond_rtag.getD t NO_BOND) hidlt]


/-- Unfolding of removeBond when the removed slot is not the last one: the
last relation is moved into the vacated slot. -/
theorem removeBond_swap_eq (s : BondData) (t : Nat)
    (hlive : s.bond_rtag.getD t NO_BOND ≠ NO_BOND)
    (hsw : s.bond_rtag.getD t NO_BOND < s.bonds.length - 1) :
    removeBond s t = .ok { s with
      bonds := (s.bonds.set (s.bond_rtag.getD t NO_BOND)
        (s.bonds.getD (s.bonds.length - 1) (0, 0))).dropLast,
      bond_type := (s.bond_type.set (s.bond_rtag.getD t NO_BOND)
        (s.bond_type.getD (s.bonds.length - 1) 0)).dropLast,
      tags := (s.tags.set (s.bond_rtag.getD t NO_BOND)
        (s.tags.getD (s.bonds.length - 1) 0)).dropLast,
      bond_rtag := (s.bond_rtag.set t NO_BOND).set
        (s.tags.getD (s.bonds.length - 1) 0) (s.bond_rtag.getD t NO_BOND),
      deleted_tags := t :: s.deleted_tags,
      bonds_dirty := true } := by
  simp only [removeBond, rtagLookup]
  rw [if_neg hlive, if_pos hsw]

/-- Unfolding of removeBond when the removed slot is the last one: the arrays
are only truncated. -/
theorem removeBond_last_eq (s : BondData) (t : Nat)
    (hlive : s.bond_rtag.getD t NO_BOND ≠ NO_BOND)
    (hsw : ¬ s.bond_rtag.getD t NO_BOND < s.bonds.length - 1) :
    removeBond s t = .ok { s with
      bonds := s.bonds.dropLast,
      bond_type := s.bond_type.dropLast,
      tags := s.tags.dropLast,
      bond_rtag := s.bond_rtag.set t NO_BOND,
      deleted_tags := t :: s.deleted_tags,
      bonds_dirty := true } := by
  simp only [removeBond, rtagLookup]
  rw [if_neg hlive, if_neg hsw]

/-- Unfolding of removeBond on a dead or never-issued tag. -/
theorem removeBond_notFound (s : BondData) (t : Nat)
    (hdead : rtagLookup s t = NO_BOND) :
    removeBond s t = .error .NotFound := by
  simp only [removeBond, rtagLookup] at hdead ⊢
  rw [if_pos hdead]

/-- Full characterization of a successful removeBond: the count drops by one,
the removed tag reads the sentinel and is pushed on the recycle stack, the
last relation is moved into the vacated slot when needed, the invariant is
preserved, and every surviving live tag still resolves to the same bond. -/
theorem removeBond_spec (s : BondData) (t : Nat) (hwf : Wf s)
    (hlive : rtagLookup s t ≠ NO_BOND) :
    ∃ s2, removeBond s t = .ok s2 ∧ Wf s2 ∧
      s2.bonds.length + 1 = s.bonds.length ∧
      rtagLookup s2 t = NO_BOND ∧
      s2.deleted_tags = t :: s.deleted_tags ∧
      s2.n_bond_types = s.n_bond_types ∧
      (∀ u, u ≠ t → rtagLookup s u ≠ NO_BOND →
        rtagLookup s2 u ≠ NO_BOND ∧ getBondByTag s2 u = getBondByTag s u) ∧
      (rtagLookup s t ≠ s.bonds.length - 1 →
        s2.bonds.getD (rtagLookup s t) (0, 0) = s.bonds.getD (s.bonds.length - 1) (0, 0) ∧
        s2.bond_type.getD (rtagLookup s t) 0 = s.bond_type.getD (s.bonds.length - 1) 0 ∧
        rtagLookup s2 (s.tags.getD (s.bonds.length - 1) 0) = rtagLookup s t) := by
  obtain ⟨h1, h2, h3, h4, h5, h6, h7, h8⟩ := hwf
  have htlt : t < s.bond_rtag.length := rtagLookup_lt s t hlive
  simp only [rtagLookup] at hlive ⊢
  obtain ⟨hidlt, htagid⟩ := h6 t htlt hlive
  have hC1 : 1 ≤ s.bonds.length := by omega
  have htnotdel : t ∉ s.deleted_tags := by
    intro hmem
    exact hlive (h7 t hmem).2
  by_cases hsw : s.bond_rtag.getD t NO_BOND < s.bonds.length - 1
  · -- swap case: the removed slot is not the last
    have hLlt : s.bonds.length - 1 < s.bonds.length := by omega
    obtain ⟨hlt_lt, hrt_lt, htype_L⟩ := h5 (s.bonds.length - 1) hLlt
    have hltne_t : s.tags.getD (s.bonds.length - 1) 0 ≠ t := by
      intro he
      rw [he] at hrt_lt
      omega
    refine ⟨_, removeBond_swap_eq s t hlive hsw, ?_, ?_, ?_, ?_, ?_, ?_, ?_⟩
    · -- invariant preservation
      refine ⟨?_, ?_, ?_, ?_, ?_, ?_, ?_, ?_⟩
      · dsimp only; simp [h1]
      · dsimp only; simp [h2]
      · dsimp only
        simp only [List.length_dropLast, List.length_set, List.length_cons]
        omega
      · dsimp only
        simp only [List.length_dropLast, List.length_set]
        omega
      · dsimp only
        intro i hi
        simp only [List.length_dropLast, List.length_set] at hi
        simp only [List.length_set]
        by_cases hieq : i = s.bond_rtag.getD t NO_BOND
        · subst hieq
          have htags2 : ((s.tags.set (s.bond_rtag.getD t NO_BOND)
              (s.tags.getD (s.bonds.length - 1) 0)).dropLast).getD (s.bond_rtag.getD t NO_BOND) 0
              = s.tags.getD (s.bonds.length - 1) 0 := by
            rw [lgetD_dropLast _ _ _ (by simp only [List.length_set]; omega)]
            exact lgetD_set_self _ _ _ _ (by omega)
          refine ⟨?_, ?_, ?_⟩
          · rw [htags2]; exact hlt_lt
          · rw [htags2, lgetD_set_self _ _ _ _ (by simp only [List.length_set]; omega)]
          · rw [lgetD_dropLast _ _ _ (by simp only [List.length_set]; omega),
              lgetD_set_self _ _ _ _ (by omega)]
            exact htype_L
        · have hiC : i < s.bonds.length := by omega
          have htags2 : ((s.tags.set (s.bond_rtag.getD t NO_BOND)
              (s.tags.getD (s.bonds.length - 1) 0)).dropLast).getD i 0 = s.tags.getD i 0 := by
            rw [lgetD_dropLast _ _ _ (by simp only [List.length_set]; omega)]
            exact lgetD_set_ne _ _ _ _ _ (fun hx => hieq hx.symm)
          obtain ⟨hta, htb, htc⟩ := h5 i hiC
          have hne_lt : s.tags.getD i 0 ≠ s.tags.getD (s.bonds.length - 1) 0 := by
            intro he
            rw [he, hrt_lt] at htb
            omega
          have hne_t : s.tags.getD i 0 ≠ t := by
            intro he
            rw [he] at htb
            exact hieq htb.symm
          refine ⟨?_, ?_, ?_⟩
          · rw [htags2]; exact hta
          · rw [htags2, lgetD_set_ne _ _ _ _ _ (fun hx => hne_lt hx.symm),
              lgetD_set_ne _ _ _ _ _ (fun hx => hne_t hx.symm)]
            exact htb
          · rw [lgetD_dropLast _ _ _ (by simp only [List.length_set]; omega),
              lgetD_set_ne _ _ _ _ _ (fun hx => hieq hx.symm)]
            exact htc
      · dsimp only
        intro tg2 htg2 hne
        simp only [List.length_set] at htg2
        simp only [List.length_dropLast, List.length_set]
        by_cases helt : tg2 = s.tags.getD (s.bonds.length - 1) 0
        · subst helt
          rw [lgetD_set_self _ _ _ _ (by simp only [List.length_set]; omega)] at hne ⊢
          refine ⟨by omega, ?_⟩
          rw [lgetD_dropLast _ _ _ (by simp only [List.length_set]; omega)]
          exact lgetD_set_self _ _ _ _ (by omega)
        · rw [lgetD_set_ne _ _ _ _ _ (fun hx => helt hx.symm)] at hne ⊢
          by_cases het : tg2 = t
          · subst het
            rw [lgetD_set_self _ _ _ _ htlt] at hne
            exact absurd rfl hne
          · rw [lgetD_set_ne _ _ _ _ _ (fun hx => het hx.symm)] at hne ⊢
            obtain ⟨hja, hjb⟩ := h6 tg2 htg2 hne
            have hjneL : s.bond_rtag.getD tg2 NO_BOND ≠ s.bonds.length - 1 := by
              intro he
              rw [he] at hjb
              exact helt hjb.symm
            have hjneid : s.bond_rtag.getD tg2 NO_BOND ≠ s.bond_rtag.getD t NO_BOND := by
              intro he
              rw [he] at hjb
              exact het (htagid ▸ hjb.symm)
            refine ⟨by omega, ?_⟩
            rw [lgetD_dropLast _ _ _ (by simp only [List.length_set]; omega),
              lgetD_set_ne _ _ _ _ _ (fun hx => hjneid hx.symm)]
            exact hjb
      · dsimp only
        intro d hd
        simp only [List.length_set]
        rcases List.mem_cons.mp hd with he | hmem
        · subst he
          refine ⟨htlt, ?_⟩
          rw [lgetD_set_ne _ _ _ _ _ hltne_t]
          exact lgetD_set_self _ _ _ _ htlt
        · have hdne_t : d ≠ t := fun he => htnotdel (he ▸ hmem)
          have hdne_lt : d ≠ s.tags.getD (s.bonds.length - 1) 0 := by
            intro he
            have hx := (h7 d hmem).2
            rw [he, hrt_lt] at hx
            omega
          refine ⟨(h7 d hmem).1, ?_⟩
          rw [lgetD_set_ne _ _ _ _ _ (fun hx => hdne_lt hx.symm),
            lgetD_set_ne _ _ _ _ _ (fun hx => hdne_t hx.symm)]
          exact (h7 d hmem).2
      · dsimp only
        exact List.nodup_cons.mpr ⟨htnotdel, h8⟩
    · dsimp only
      simp only [List.length_dropLast, List.length_set]
      omega
    · dsimp only
      rw [lgetD_set_ne _ _ _ _ _ hltne_t]
      exact lgetD_set_self _ _ _ _ htlt
    · rfl
    · rfl
    · -- surviving tags still resolve to the same bond
      intro u hu hulive
      have hult : u < s.bond_rtag.length := rtagLookup_lt s u hulive
      obtain ⟨hja, hjb⟩ := h6 u hult hulive
      by_cases huelt : u = s.tags.getD (s.bonds.length - 1) 0
      · have hjL : s.bond_rtag.getD u NO_BOND = s.bonds.length - 1 := by
          rw [huelt, hrt_lt]
        have hru : ((s.bond_rtag.set t NO_BOND).set (s.tags.getD (s.bonds.length - 1) 0)
            (s.bond_rtag.getD t NO_BOND)).getD u NO_BOND = s.bond_rtag.getD t NO_BOND := by
          rw [huelt]
          exact lgetD_set_self _ _ _ _ (by simp only [List.length_set]; omega)
        constructor
        · dsimp only
          rw [hru]
          omega
        · simp only [getBondByTag, rtagLookup, getBond]
          rw [hru, hjL]
          rw [if_neg (show ¬(s.bond_rtag.getD t NO_BOND = NO_BOND) by omega),
            if_neg (show ¬(s.bonds.length - 1 = NO_BOND) by omega)]
          have hcl : s.bond_rtag.getD t NO_BOND < ((s.bonds.set (s.bond_rtag.getD t NO_BOND)
              (s.bonds.getD (s.bonds.length - 1) (0, 0))).dropLast).length ∧
              s.bond_rtag.getD t NO_BOND < ((s.bond_type.set (s.bond_rtag.getD t NO_BOND)
              (s.bond_type.getD (s.bonds.length - 1) 0)).dropLast).length := by
            constructor
            · simp only [List.length_dropLast, List.length_set]; omega
            · simp only [List.length_dropLast, List.length_set]; omega
          have hcr : s.bonds.length - 1 < s.bonds.length ∧
              s.bonds.length - 1 < s.bond_type.length := ⟨by omega, by omega⟩
          rw [if_pos hcl, if_pos hcr]
          rw [lgetD_dropLast _ _ _ (by simp only [List.length_set]; omega),
            lgetD_set_self _ _ _ _ (by omega)]
          rw [lgetD_dropLast _ _ _ (by simp only [List.length_set]; omega),
            lgetD_set_self _ _ _ _ (by omega)]
      · have hjneL : s.bond_rtag.getD u NO_BOND ≠ s.bonds.length - 1 := by
          intro he
          rw [he] at hjb
          exact huelt hjb.symm
        have hjneid : s.bond_rtag.getD u NO_BOND ≠ s.bond_rtag.getD t NO_BOND := by
          intro he
          rw [he] at hjb
          exact hu (htagid ▸ hjb.symm)
        have hru : ((s.bond_rtag.set t NO_BOND).set (s.tags.getD (s.bonds.length - 1) 0)
            (s.bond_rtag.getD t NO_BOND)).getD u NO_BOND = s.bond_rtag.getD u NO_BOND := by
          rw [lgetD_set_ne _ _ _ _ _ (fun hx => huelt hx.symm),
            lgetD_set_ne _ _ _ _ _ (fun hx => hu hx.symm)]
        constructor
        · dsimp only
          rw [hru]
          exact hulive
        · simp only [getBondByTag, rtagLookup, getBond]
          rw [hru]
          rw [if_neg hulive, if_neg hulive]
          have hcl : s.bond_rtag.getD u NO_BOND < ((s.bonds.set (s.bond_rtag.getD t NO_BOND)
              (s.bonds.getD (s.bonds.length - 1) (0, 0))).dropLast).length ∧
              s.bond_rtag.getD u NO_BOND < ((s.bond_type.set (s.bond_rtag.getD t NO_BOND)
              (s.bond_type.getD (s.bonds.length - 1) 0)).dropLast).length := by
            constructor
            · simp only [List.length_dropLast, List.length_set]; omega
            · simp only [List.length_dropLast, List.length_set]; omega
          have hcr : s.bond_rtag.getD u NO_BOND < s.bonds.length ∧
              s.bond_rtag.getD u NO_BOND < s.bond_type.length := ⟨hja, by omega⟩
          rw [if_pos hcl, if_pos hcr]
          rw [lgetD_dropLast _ _ _ (by simp only [List.length_set]; omega),
            lgetD_set_ne _ _ _ _ _ (fun hx => hjneid hx.symm)]
          rw [lgetD_dropLast _ _ _ (by simp only [List.length_set]; omega),
            lgetD_set_ne _ _ _ _ _ (fun hx => hjneid hx.symm)]
    · -- the moved-last-relation facts
      intro hne
      refine ⟨?_, ?_, ?_⟩
      · dsimp only
        rw [lgetD_dropLast _ _ _ (by simp only [List.length_set]; omega)]
        exact lgetD_set_self _ _ _ _ (by omega)
      · dsimp only
        rw [lgetD_dropLast _ _ _ (by simp only [List.length_set]; omega)]
        exact lgetD_set_self _ _ _ _ (by omega)
      · dsimp only
        exact lgetD_set_self _ _ _ _ (by simp only [List.length_set]; omega)
  · -- no-swap case: the removed slot is the last
    have hideq : s.bond_rtag.getD t NO_BOND = s.bonds.length - 1 := by omega
    refine ⟨_, removeBond_last_eq s t hlive hsw, ?_, ?_, ?_, ?_, ?_, ?_, ?_⟩
    · refine ⟨?_, ?_, ?_, ?_, ?_, ?_, ?_, ?_⟩
      · dsimp only; simp [h1]
      · dsimp only; simp [h2]
      · dsimp only
        simp only [List.length_dropLast, List.length_set, List.length_cons]
        omega
      · dsimp only
        simp only [List.length_dropLast]
        omega
      · dsimp only
        intro i hi
        simp only [List.length_dropLast] at hi
        simp only [List.length_set]
        have hiC : i < s.bonds.length := by omega
        have htags2 : (s.tags.dropLast).getD i 0 = s.tags.getD i 0 :=
          lgetD_dropLast _ _ _ (by omega)
        obtain ⟨hta, htb, htc⟩ := h5 i hiC
        have hne_t : s.tags.getD i 0 ≠ t := by
          intro he
          rw [he] at htb
          omega
        refine ⟨?_, ?_, ?_⟩
        · rw [htags2]; exact hta
        · rw [htags2, lgetD_set_ne _ _ _ _ _ (fun hx => hne_t hx.symm)]
          exact htb
        · rw [lgetD_dropLast _ _ _ (by omega)]
          exact htc
      · dsimp only
        intro tg2 htg2 hne
        simp only [List.length_set] at htg2
        simp only [List.length_dropLast]
        by_cases het : tg2 = t
        · subst het
          rw [lgetD_set_self _ _ _ _ htlt] at hne
          exact absurd rfl hne
        · rw [lgetD_set_ne _ _ _ _ _ (fun hx => het hx.symm)] at hne ⊢
          obtain ⟨hja, hjb⟩ := h6 tg2 htg2 hne
          have hjneid : s.bond_rtag.getD tg2 NO_BOND ≠ s.bonds.length - 1 := by
            intro he
            rw [he, ← hideq, htagid] at hjb
            exact het hjb.symm
          refine ⟨by omega, ?_⟩
          rw [lgetD_dropLast _ _ _ (by omega)]
          exact hjb
      · dsimp only
        intro d hd
        simp only [List.length_set]
        rcases List.mem_cons.mp hd with he | hmem
        · subst he
          exact ⟨htlt, lgetD_set_self _ _ _ _ htlt⟩
        · have hdne_t : d ≠ t := fun he => htnotdel (he ▸ hmem)
          refine ⟨(h7 d hmem).1, ?_⟩
          rw [lgetD_set_ne _ _ _ _ _ (fun hx => hdne_t hx.symm)]
          exact (h7 d hmem).2
      · dsimp only
        exact List.nodup_cons.mpr ⟨htnotdel, h8⟩
    · dsimp only
      simp only [List.length_dropLast]
      omega
    · dsimp only
      exact lgetD_set_self _ _ _ _ htlt
    · rfl
    · rfl
    · intro u hu hulive
      have hult : u < s.bond_rtag.length := rtagLookup_lt s u hulive
      obtain ⟨hja, hjb⟩ := h6 u hult hulive
      have hjneid : s.bond_rtag.getD u NO_BOND ≠ s.bonds.length - 1 := by
        intro he
        rw [he, ← hideq, htagid] at hjb
        exact hu hjb.symm
      have hru : (s.bond_rtag.set t NO_BOND).getD u NO_BOND = s.bond_rtag.getD u NO_BOND :=
        lgetD_set_ne _ _ _ _ _ (fun hx => hu hx.symm)
      constructor
      · dsimp only
        rw [hru]
        exact hulive
      · simp only [getBondByTag, rtagLookup, getBond]
        rw [hru]
        rw [if_neg hulive, if_neg hulive]
        have hcl : s.bond_rtag.getD u NO_BOND < (s.bonds.dropLast).length ∧
            s.bond_rtag.getD u NO_BOND < (s.bond_type.dropLast).length := by
          constructor
          · simp only [List.length_dropLast]; omega
          · simp only [List.length_dropLast]; omega
        have hcr : s.bond_rtag.getD u NO_BOND < s.bonds.length ∧
            s.bond_rtag.getD u NO_BOND < s.bond_type.length := ⟨hja, by omega⟩
        rw [if_pos hcl, if_pos hcr]
        rw [lgetD_dropLast _ _ _ (by omega), lgetD_dropLast _ _ _ (by omega)]
    · intro hne
      exact absurd hideq hne

/-- A successful lookup by tag implies the reverse-lookup entry is live. -/
theorem rtag_live_of_ok (s : BondData) (t : Nat) (b : Bond)
    (h : getBondByTag s t = .ok b) : rtagLookup s t ≠ NO_BOND := by
  intro hdead
  simp only [getBondByTag] at h
  rw [if_pos hdead] at h
  exact absurd h (by simp)

/-- A live tag resolves to the bond stored at its dense slot. -/
theorem getBondByTag_live (s : BondData) (t : Nat) (hwf : Wf s)
    (hlive : rtagLookup s t ≠ NO_BOND) :
    getBondByTag s t = .ok ⟨s.bond_type.getD (rtagLookup s t) 0,
      (s.bonds.getD (rtagLookup s t) (0, 0)).1,
      (s.bonds.getD (rtagLookup s t) (0, 0)).2⟩ := by
  obtain ⟨h1, h2, h3, h4, h5, h6, h7, h8⟩ := hwf
  have htlt : t < s.bond_rtag.length := rtagLookup_lt s t hlive
  simp only [rtagLookup] at hlive ⊢
  obtain ⟨hidlt, htagid⟩ := h6 t htlt hlive
  simp only [getBondByTag, rtagLookup, getBond]
  rw [if_neg hlive, if_pos ⟨hidlt, by omega⟩]

/-- The tag returned by a successful addBond resolves immediately to the bond
just added. -/
theorem getBondByTag_after_add (s : BondData) (b : Bond) (tg : Nat) (s2 : BondData)
    (hwf : Wf s) (h : addBond s b = .ok (tg, s2)) :
    getBondByTag s2 tg = .ok ⟨b.type, b.a, b.b⟩ := by
  obtain ⟨h1, h2, h3, h4, h5, h6, h7, h8⟩ := hwf
  have hty : b.type < s.n_bond_types := addBond_type_lt s b tg s2 h
  cases hpool : s.deleted_tags with
  | cons tg0 rest =>
    rw [addBond_pool s b tg0 rest hty hpool, Except.ok.injEq, Prod.mk.injEq] at h
    obtain ⟨h9, h10⟩ := h
    subst h10
    subst h9
    have htg_lt : tg0 < s.bond_rtag.length :=
      (h7 tg0 (by rw [hpool]; exact List.mem_cons_self _ _)).1
    simp only [getBondByTag, rtagLookup, getBond]
    rw [lgetD_set_self _ _ _ _ htg_lt]
    rw [if_neg (by omega)]
    rw [if_pos (by constructor <;>
      simp only [List.length_append, List.length_cons, List.length_nil] <;> omega)]
    rw [lgetD_append_at _ _ _ _ h1.symm, lgetD_append_at _ _ _ _ rfl]
  | nil =>
    rw [addBond_fresh s b hty hpool, Except.ok.injEq, Prod.mk.injEq] at h
    obtain ⟨h9, h10⟩ := h
    subst h10
    subst h9
    have hrlen : s.bonds.length = s.bond_rtag.length := by
      rw [hpool] at h3
      simpa using h3
    simp only [getBondByTag, rtagLookup, getBond]
    rw [lgetD_append_at _ _ _ _ hrlen]
    rw [if_neg (by omega)]
    rw [if_pos (by constructor <;>
      simp only [List.length_append, List.length_cons, List.length_nil] <;> omega)]
    rw [lgetD_append_at _ _ _ _ h1.symm, lgetD_append_at _ _ _ _ rfl]

/-- One table operation preserves the invariant, grows the table by at most
one slot, and leaves a live tag not removed by it resolving unchanged. -/
theorem applyOp_stable (s : BondData) (op : Op) (t : Nat) (b : Bond)
    (hwf : Wf s) (hcap : s.bonds.length + 1 < NO_BOND)
    (hres : getBondByTag s t = .ok b) (hop : op ≠ Op.remove t) :
    Wf (applyOp s op) ∧ (applyOp s op).bonds.length ≤ s.bonds.length + 1 ∧
      getBondByTag (applyOp s op) t = .ok b := by
  cases op with
  | add b2 =>
    cases hadd : addBond s b2 with
    | ok p =>
      have hadd2 : addBond s b2 = .ok (p.1, p.2) := by rw [hadd]
      obtain ⟨hwf2, hlen2, _⟩ := Wf_addBond s b2 p.1 p.2 hwf hcap hadd2
      have happ : applyOp s (.add b2) = p.2 := by
        simp only [applyOp, hadd]
      rw [happ]
      refine ⟨hwf2, by omega, ?_⟩
      rw [getBondByTag_addBond s b2 p.1 t p.2
        ⟨hwf.1, hwf.2.1, hwf.2.2.1, hwf.2.2.2.1, hwf.2.2.2.2.1, hwf.2.2.2.2.2.1,
          hwf.2.2.2.2.2.2.1, hwf.2.2.2.2.2.2.2⟩ hadd2 (rtag_live_of_ok s t b hres)]
      exact hres
    | error e =>
      have happ : applyOp s (.add b2) = s := by
        simp only [applyOp, hadd]
      rw [happ]
      exact ⟨hwf, by omega, hres⟩
  | remove u =>
    have hune : u ≠ t := by
      intro he
      exact hop (by rw [he])
    by_cases hdead : rtagLookup s u = NO_BOND
    · have happ : applyOp s (.remove u) = s := by
        simp only [applyOp, removeBond_notFound s u hdead]
      rw [happ]
      exact ⟨hwf, by omega, hres⟩
    · obtain ⟨s2, heq, hwf2, hlen2, _, _, _, hsurv, _⟩ := removeBond_spec s u hwf hdead
      have happ : applyOp s (.remove u) = s2 := by
        simp only [applyOp, heq]
      rw [happ]
      refine ⟨hwf2, by omega, ?_⟩
      rw [(hsurv t (fun he => hune he.symm) (rtag_live_of_ok s t b hres)).2]
      exact hres

/-- Stability of a live tag along any sequence of operations that never
removes it. -/
theorem applyOps_stable (s : BondData) (ops : List Op) (t : Nat) (b : Bond)
    (hwf : Wf s) (hcap : s.bonds.length + ops.length < NO_BOND)
    (hres : getBondByTag s t = .ok b)
    (hops : ∀ op ∈ ops, op ≠ Op.remove t) :
    getBondByTag (applyOps s ops) t = .ok b := by
  induction ops generalizing s with
  | nil => exact hres
  | cons op rest ih =>
    have hlen : rest.length + 1 = (op :: rest).length := by simp
    obtain ⟨hwf2, hle, hres2⟩ := applyOp_stable s op t b hwf
      (by simp only [List.length_cons] at hcap; omega) hres
      (hops op (List.mem_cons_self _ _))
    have happ : applyOps s (op :: rest) = applyOps (applyOp s op) rest := by
      simp only [applyOps, List.foldl_cons]
    rw [happ]
    refine ih (applyOp s op) hwf2 ?_ hres2 (fun o ho => hops o (List.mem_cons_of_mem _ ho))
    simp only [List.length_cons] at hcap
    omega

/-- List access helper fact: getD through a map. -/
theorem lgetD_map {α β : Type} (f : α → β) (l : List α) (i : Nat) (d : β) (d0 : α)
    (h : i < l.length) : (l.map f).getD i d = f (l.getD i d0) := by
  induction l generalizing i with
  | nil => simp at h
  | cons a t ih =>
    cases i with
    | zero => rfl
    | succ j =>
      simp only [List.map_cons, List.getD_cons_succ]
      exact ih j (Nat.lt_of_succ_lt_succ h)

/-- List access helper fact: an in-range getD is a member. -/
theorem lgetD_mem {α : Type} (l : List α) (i : Nat) (d : α) (h : i < l.length) :
    l.getD i d ∈ l := by
  induction l generalizing i with
  | nil => simp at h
  | cons a t ih =>
    cases i with
    | zero => exact List.mem_cons_self _ _
    | succ j =>
      simp only [List.getD_cons_succ]
      exact List.mem_cons_of_mem _ (ih j (Nat.lt_of_succ_lt_succ h))

/-- Characterization of folding the import step over a cleared table: exactly
the valid-typed entries are re-added in order, and tags are reassigned
sequentially from zero. -/
theorem foldl_addStep_clean (s0 : BondData) (E : List (Nat × Nat × Nat))
    (hb : s0.bonds = []) (ht : s0.bond_type = []) (htg : s0.tags = [])
    (hd : s0.deleted_tags = []) (hr : s0.bond_rtag = []) :
    (E.foldl addStep s0).bonds
        = (E.filter (fun e => decide (e.1 < s0.n_bond_types))).map (fun e => e.2) ∧
      (E.foldl addStep s0).bond_type
        = (E.filter (fun e => decide (e.1 < s0.n_bond_types))).map (fun e => e.1) ∧
      (E.foldl addStep s0).tags
        = List.range (E.filter (fun e => decide (e.1 < s0.n_bond_types))).length ∧
      (E.foldl addStep s0).bond_rtag
        = List.range (E.filter (fun e => decide (e.1 < s0.n_bond_types))).length ∧
      (E.foldl addStep s0).deleted_tags = [] ∧
      (E.foldl addStep s0).n_bond_types = s0.n_bond_types ∧
      (E.foldl addStep s0).bond_type_mapping = s0.bond_type_mapping := by
  induction E using List.reverseRecOn with
  | nil =>
    exact ⟨hb, ht, htg, hr, hd, rfl, rfl⟩
  | append_singleton E e ih =>
    obtain ⟨ihb, iht, ihtg, ihr, ihd, ihn, ihm⟩ := ih
    rw [List.foldl_append, List.foldl_cons, List.foldl_nil, List.filter_append]
    by_cases hpe : e.1 < s0.n_bond_types
    · have hfe : List.filter (fun e => decide (e.1 < s0.n_bond_types)) [e] = [e] := by
        simp [hpe]
      have hty2 : (⟨e.1, e.2.1, e.2.2⟩ : Bond).type < (E.foldl addStep s0).n_bond_types := by
        rw [ihn]; exact hpe
      have hstep : addStep (E.foldl addStep s0) e
          = { E.foldl addStep s0 with
              bond_rtag := (E.foldl addStep s0).bond_rtag ++ [(E.foldl addStep s0).bonds.length],
              tags := (E.foldl addStep s0).tags ++ [(E.foldl addStep s0).bonds.length],
              bonds := (E.foldl addStep s0).bonds ++ [(e.2.1, e.2.2)],
              bond_type := (E.foldl addStep s0).bond_type ++ [e.1],
              bonds_dirty := true } := by
        simp only [addStep, addBond_fresh (E.foldl addStep s0) ⟨e.1, e.2.1, e.2.2⟩ hty2 ihd]
      rw [hstep, hfe]
      have hlen : (E.foldl addStep s0).bonds.length
          = (E.filter (fun e => decide (e.1 < s0.n_bond_types))).length := by
        rw [ihb, List.length_map]
      refine ⟨?_, ?_, ?_, ?_, ?_, ?_, ?_⟩
      · dsimp only
        rw [ihb, List.map_append]
        rfl
      · dsimp only
        rw [iht, List.map_append]
        rfl
      · dsimp only
        rw [ihtg, hlen, List.length_append, List.length_cons, List.length_nil,
          List.range_succ]
      · dsimp only
        rw [ihr, hlen, List.length_append, List.length_cons, List.length_nil,
          List.range_succ]
      · dsimp only
        exact ihd
      · dsimp only
        exact ihn
      · dsimp only
        exact ihm
    · have hfe : List.filter (fun e => decide (e.1 < s0.n_bond_types)) [e] = [] := by
        simp [hpe]
      have hstep : addStep (E.foldl addStep s0) e = E.foldl addStep s0 := by
        simp only [addStep, addBond]
        rw [if_pos (by rw [ihn]; omega)]
      rw [hstep, hfe, List.append_nil]
      exact ⟨ihb, iht, ihtg, ihr, ihd, ihn, ihm⟩

/-- Field characterization of a snapshot import: the table is rebuilt from
scratch from the snapshot entries (valid-typed ones), with sequential tags,
an empty recycle pool, the snapshot type names, and the dirty flag set. -/
theorem initializeFromSnapshot_fields (s : BondData) (snap : SnapshotBondData) :
    (initializeFromSnapshot s snap).bonds
        = ((snap.type_id.zip snap.bonds).filter
            (fun e => decide (e.1 < s.n_bond_types))).map (fun e => e.2) ∧
      (initializeFromSnapshot s snap).bond_type
        = ((snap.type_id.zip snap.bonds).filter
            (fun e => decide (e.1 < s.n_bond_types))).map (fun e => e.1) ∧
      (initializeFromSnapshot s snap).tags
        = List.range ((snap.type_id.zip snap.bonds).filter
            (fun e => decide (e.1 < s.n_bond_types))).length ∧
      (initializeFromSnapshot s snap).bond_rtag
        = List.range ((snap.type_id.zip snap.bonds).filter
            (fun e => decide (e.1 < s.n_bond_types))).length ∧
      (initializeFromSnapshot s snap).deleted_tags = [] ∧
      (initializeFromSnapshot s snap).n_bond_types = s.n_bond_types ∧
      (initializeFromSnapshot s snap).bond_type_mapping = snap.type_mapping ∧
      (initializeFromSnapshot s snap).bonds_dirty = true := by
  have hfold := foldl_addStep_clean ({ s with bonds := [], bond_type := [], tags := [], deleted_tags := [], bond_rtag := [], bond_type_mapping := snap.type_mapping }) (snap.type_id.zip snap.bonds) rfl rfl rfl rfl rfl
  obtain ⟨hb, ht, htg, hr, hd, hn, hm⟩ := hfold
  simp only [initializeFromSnapshot]
  exact ⟨hb, ht, htg, hr, hd, hn, hm, trivial⟩

/-- The invariant holds for any freshly imported table. -/
theorem Wf_initializeFromSnapshot (s : BondData) (snap : SnapshotBondData)
    (hcap : snap.bonds.length < NO_BOND) : Wf (initializeFromSnapshot s snap) := by
  obtain ⟨hb, ht, htg, hr, hd, hn, hm, hdirty⟩ := initializeFromSnapshot_fields s snap
  have hFle : ((snap.type_id.zip snap.bonds).filter
      (fun e => decide (e.1 < s.n_bond_types))).length < NO_BOND := by
    have hx := List.length_filter_le (fun e => decide (e.1 < s.n_bond_types))
      (snap.type_id.zip snap.bonds)
    have hy := List.length_zip snap.type_id snap.bonds
    omega
  unfold Wf
  refine ⟨?_, ?_, ?_, ?_, ?_, ?_, ?_, ?_⟩
  · rw [hb, ht]
    simp
  · rw [hb, htg]
    simp
  · rw [hb, hd, hr]
    simp
  · rw [hb]
    simp only [List.length_map]
    exact hFle
  · intro i hi
    rw [hb] at hi
    simp only [List.length_map] at hi
    refine ⟨?_, ?_, ?_⟩
    · rw [htg, hr, lgetD_range _ _ _ hi]
      simp only [List.length_range]
      exact hi
    · rw [htg, hr, lgetD_range _ _ _ hi, lgetD_range _ _ _ hi]
    · rw [ht, hn, lgetD_map (fun e => e.1) _ _ _ (0, 0, 0) hi]
      have hmem := lgetD_mem _ i (0, 0, 0) hi
      have := List.mem_filter.mp hmem
      exact of_decide_eq_true this.2
  · intro tg2 htg2 hne
    rw [hr] at htg2
    simp only [List.length_range] at htg2
    rw [hr, lgetD_range _ _ _ htg2] at hne ⊢
    refine ⟨?_, ?_⟩
    · rw [hb]
      simp only [List.length_map]
      exact htg2
    · rw [htg, lgetD_range _ _ _ htg2]
  · intro d hd2
    rw [hd] at hd2
    simp at hd2
  · rw [hd]
    exact List.nodup_nil

/-- The invariant holds at construction. -/
theorem Wf_init (n : Nat) (tm : List String) : Wf (BondData.init n tm) := by
  refine ⟨rfl, rfl, rfl, by show (0 : Nat) < NO_BOND; decide, ?_, ?_, ?_, ?_⟩
  · intro i hi
    simp [BondData.init] at hi
  · intro tg htg
    simp [BondData.init] at htg
  · intro d hd
    simp [BondData.init] at hd
  · exact List.nodup_nil

/-- The invariant is untouched by setDirty (the resort signal receiver). -/
theorem Wf_setDirty (s : BondData) (hwf : Wf s) : Wf (setDirty s) := by
  obtain ⟨h1, h2, h3, h4, h5, h6, h7, h8⟩ := hwf
  exact ⟨h1, h2, h3, h4, h5, h6, h7, h8⟩

/-- The invariant is untouched by the mirror accessor, which only rewrites
the GPU-side fields and the dirty flag. -/
theorem Wf_getGPUBondList (numOwners : Nat) (s : BondData) (hwf : Wf s) :
    Wf (getGPUBondList numOwners s) := by
  obtain ⟨h1, h2, h3, h4, h5, h6, h7, h8⟩ := hwf
  unfold getGPUBondList
  split
  · exact ⟨h1, h2, h3, h4, h5, h6, h7, h8⟩
  · exact ⟨h1, h2, h3, h4, h5, h6, h7, h8⟩

/-- Reachability: table states obtainable from a constructor call by any
sequence of the public operations (within the 32-bit tag budget, below which
a dense index can never collide with the sentinel). -/
inductive Reachable : BondData → Prop where
  | start (n : Nat) (tm : List String) : Reachable (BondData.init n tm)
  | addOk (s : BondData) (b : Bond) (tg : Nat) (s2 : BondData) :
      Reachable s → s.bonds.length + 1 < NO_BOND → addBond s b = .ok (tg, s2) →
      Reachable s2
  | removeOk (s : BondData) (tg : Nat) (s2 : BondData) :
      Reachable s → removeBond s tg = .ok s2 → Reachable s2
  | resort (s : BondData) : Reachable s → Reachable (setDirty s)
  | mirror (s : BondData) (numOwners : Nat) : Reachable s →
      Reachable (getGPUBondList numOwners s)
  | importSnap (s : BondData) (snap : SnapshotBondData) :
      Reachable s → snap.bonds.length < NO_BOND →
      Reachable (initializeFromSnapshot s snap)

/-- Every reachable table state satisfies the consistency invariant. -/
theorem reachable_wf (s : BondData) (h : Reachable s) : Wf s := by
  induction h with
  | start n tm => exact Wf_init n tm
  | addOk s b tg s2 hr hcap heq ih => exact (Wf_addBond s b tg s2 ih hcap heq).1
  | removeOk s tg s2 hr heq ih =>
    by_cases hdead : rtagLookup s tg = NO_BOND
    · rw [removeBond_notFound s tg hdead] at heq
      exact absurd heq (by simp)
    · obtain ⟨s3, heq2, hwf2, _, _, _, _, _, _⟩ := removeBond_spec s tg ih hdead
      rw [heq2, Except.ok.injEq] at heq
      exact heq ▸ hwf2
  | resort s hr ih => exact Wf_setDirty s ih
  | mirror s numOwners hr ih => exact Wf_getGPUBondList numOwners s ih
  | importSnap s snap hr hcap ih => exact Wf_initializeFromSnapshot s snap hcap

/-- Degree of an owner: how many mirror cells it receives — one for each end
of each relation it participates in (a self-relation counts twice), exactly
as pass 1 of the rebuild increments its counter. -/
def degree (entries : List ((Nat × Nat) × Nat)) (o : Nat) : Nat :=
  (entries.map (fun e => (if e.1.1 = o then 1 else 0) + (if e.1.2 = o then 1 else 0))).sum

/-- The column the rebuild owes to owner o: one (partner, type) cell per
participation, in relation order. -/
def colSpec (o : Nat) (entries : List ((Nat × Nat) × Nat)) : List (Nat × Nat) :=
  entries.flatMap (fun e =>
    (if e.1.1 = o then [(e.1.2, e.2)] else []) ++ (if e.1.2 = o then [(e.1.1, e.2)] else []))

/-- Maximum owner degree over all owners. -/
def maxDegree (numOwners : Nat) (entries : List ((Nat × Nat) × Nat)) : Nat :=
  ((List.range numOwners).map (fun o => degree entries o)).foldl Nat.max 0

/-- Length is preserved by a counter bump. -/
theorem bump_length (cnt : List Nat) (o : Nat) : (bump cnt o).length = cnt.length := by
  simp [bump]

/-- Reading a counter array after a bump. -/
theorem bump_getD (cnt : List Nat) (o i : Nat) (h : o < cnt.length) :
    (bump cnt o).getD i 0 = cnt.getD i 0 + (if o = i then 1 else 0) := by
  by_cases he : o = i
  · subst he
    rw [if_pos rfl]
    exact lgetD_set_self _ _ _ _ h
  · rw [if_neg he, Nat.add_zero]
    exact lgetD_set_ne _ _ _ _ _ he

/-- Pass 1 of the rebuild preserves the counter array length. -/
theorem foldl_bump2_length (entries : List ((Nat × Nat) × Nat)) (cnt : List Nat) :
    (entries.foldl (fun c e => bump (bump c e.1.1) e.1.2) cnt).length = cnt.length := by
  induction entries generalizing cnt with
  | nil => rfl
  | cons e es ih =>
    rw [List.foldl_cons, ih, bump_length, bump_length]

/-- Pass 1 of the rebuild adds each owner s degree to its counter. -/
theorem foldl_bump2_getD (entries : List ((Nat × Nat) × Nat)) (cnt : List Nat) (o : Nat)
    (hall : ∀ e ∈ entries, e.1.1 < cnt.length ∧ e.1.2 < cnt.length) :
    (entries.foldl (fun c e => bump (bump c e.1.1) e.1.2) cnt).getD o 0
      = cnt.getD o 0 + degree entries o := by
  induction entries generalizing cnt with
  | nil => simp [degree]
  | cons e es ih =>
    rw [List.foldl_cons]
    have ha : e.1.1 < cnt.length := (hall e (List.mem_cons_self _ _)).1
    have hb : e.1.2 < (bump cnt e.1.1).length := by
      rw [bump_length]
      exact (hall e (List.mem_cons_self _ _)).2
    have hrec := ih (bump (bump cnt e.1.1) e.1.2) (by
      intro e2 he2
      rw [bump_length, bump_length]
      exact hall e2 (List.mem_cons_of_mem _ he2))
    rw [hrec, bump_getD _ _ _ hb, bump_getD _ _ _ ha]
    simp only [degree, List.map_cons, List.sum_cons]
    omega

/-- The pass-1 counter array length equals the number of owners. -/
theorem degCounts_length (numOwners : Nat) (entries : List ((Nat × Nat) × Nat)) :
    (degCounts numOwners entries).length = numOwners := by
  unfold degCounts
  rw [foldl_bump2_length, List.length_replicate]

/-- The pass-1 counter array is exactly the per-owner degree table. -/
theorem degCounts_eq (numOwners : Nat) (entries : List ((Nat × Nat) × Nat))
    (hall : ∀ e ∈ entries, e.1.1 < numOwners ∧ e.1.2 < numOwners) :
    degCounts numOwners entries = (List.range numOwners).map (fun o => degree entries o) := by
  refine list_ext_getD _ _ 0 ?_ ?_
  · rw [degCounts_length]
    simp
  · intro i hi
    rw [degCounts_length numOwners entries] at hi
    unfold degCounts
    rw [foldl_bump2_getD entries _ i (by
      intro e he
      rw [List.length_replicate]
      exact hall e he)]
    rw [lgetD_replicate _ _ _ _ hi, lgetD_map_range _ _ _ _ hi]
    exact Nat.zero_add _

/-- Length is preserved by a column push. -/
theorem pushCol_length (cols : List (List (Nat × Nat))) (o : Nat) (c : Nat × Nat) :
    (pushCol cols o c).length = cols.length := by
  simp [pushCol]

/-- Reading a column table after a push. -/
theorem pushCol_getD (cols : List (List (Nat × Nat))) (o2 o : Nat) (c : Nat × Nat)
    (h : o2 < cols.length) :
    (pushCol cols o2 c).getD o [] = cols.getD o [] ++ (if o2 = o then [c] else []) := by
  by_cases he : o2 = o
  · subst he
    rw [if_pos rfl]
    exact lgetD_set_self _ _ _ _ h
  · rw [if_neg he, List.append_nil]
    exact lgetD_set_ne _ _ _ _ _ he

/-- Pass 2 of the rebuild preserves the column table length. -/
theorem foldl_push2_length (entries : List ((Nat × Nat) × Nat))
    (cols : List (List (Nat × Nat))) :
    (entries.foldl (fun cs e => pushCol (pushCol cs e.1.1 (e.1.2, e.2)) e.1.2 (e.1.1, e.2))
      cols).length = cols.length := by
  induction entries generalizing cols with
  | nil => rfl
  | cons e es ih =>
    rw [List.foldl_cons, ih, pushCol_length, pushCol_length]

/-- Pass 2 of the rebuild appends to each owner s column exactly its owed
cells, in order. -/
theorem foldl_push2_getD (entries : List ((Nat × Nat) × Nat))
    (cols : List (List (Nat × Nat))) (o : Nat)
    (hall : ∀ e ∈ entries, e.1.1 < cols.length ∧ e.1.2 < cols.length) :
    (entries.foldl (fun cs e => pushCol (pushCol cs e.1.1 (e.1.2, e.2)) e.1.2 (e.1.1, e.2))
        cols).getD o []
      = cols.getD o [] ++ colSpec o entries := by
  induction entries generalizing cols with
  | nil => simp [colSpec]
  | cons e es ih =>
    rw [List.foldl_cons]
    have ha : e.1.1 < cols.length := (hall e (List.mem_cons_self _ _)).1
    have hb : e.1.2 < (pushCol cols e.1.1 (e.1.2, e.2)).length := by
      rw [pushCol_length]
      exact (hall e (List.mem_cons_self _ _)).2
    have hrec := ih (pushCol (pushCol cols e.1.1 (e.1.2, e.2)) e.1.2 (e.1.1, e.2)) (by
      intro e2 he2
      rw [pushCol_length, pushCol_length]
      exact hall e2 (List.mem_cons_of_mem _ he2))
    rw [hrec, pushCol_getD _ _ _ _ hb, pushCol_getD _ _ _ _ ha]
    simp only [colSpec, List.flatMap_cons, List.append_assoc]

/-- The rebuilt mirror has one column per owner. -/
theorem mirrorColumns_length (numOwners : Nat) (entries : List ((Nat × Nat) × Nat)) :
    (mirrorColumns numOwners entries).length = numOwners := by
  unfold mirrorColumns
  rw [foldl_push2_length, List.length_replicate]

/-- Each column of the rebuilt mirror is exactly the owed cell list of its
owner. -/
theorem mirrorColumns_getD (numOwners : Nat) (entries : List ((Nat × Nat) × Nat)) (o : Nat)
    (hall : ∀ e ∈ entries, e.1.1 < numOwners ∧ e.1.2 < numOwners) :
    (mirrorColumns numOwners entries).getD o [] = colSpec o entries := by
  unfold mirrorColumns
  rw [foldl_push2_getD entries _ o (by
    intro e he
    rw [List.length_replicate]
    exact hall e he)]
  rcases Nat.lt_or_ge o numOwners with ho | ho
  · rw [lgetD_replicate _ _ _ _ ho, List.nil_append]
  · rw [lgetD_ge _ _ _ (by rw [List.length_replicate]; exact ho), List.nil_append]

/-- A column s length is its owner s degree. -/
theorem colSpec_length (o : Nat) (entries : List ((Nat × Nat) × Nat)) :
    (colSpec o entries).length = degree entries o := by
  induction entries with
  | nil => rfl
  | cons e es ih =>
    have h1 : ((if e.1.1 = o then [(e.1.2, e.2)] else []) : List (Nat × Nat)).length
        = (if e.1.1 = o then 1 else 0) := by
      by_cases ha : e.1.1 = o <;> simp [ha]
    have h2 : ((if e.1.2 = o then [(e.1.1, e.2)] else []) : List (Nat × Nat)).length
        = (if e.1.2 = o then 1 else 0) := by
      by_cases hb : e.1.2 = o <;> simp [hb]
    simp only [colSpec, List.flatMap_cons, List.length_append, degree, List.map_cons,
      List.sum_cons] at ih ⊢
    rw [h1, h2]
    omega

/-- Each relation contributes two cells, so the columns hold 2R cells in
total. -/
theorem sum_degree (numOwners : Nat) (entries : List ((Nat × Nat) × Nat))
    (hall : ∀ e ∈ entries, e.1.1 < numOwners ∧ e.1.2 < numOwners) :
    (Finset.range numOwners).sum (fun o => degree entries o) = 2 * entries.length := by
  induction entries with
  | nil => simp [degree]
  | cons e es ih =>
    have hrec := ih (fun e2 he2 => hall e2 (List.mem_cons_of_mem _ he2))
    have hsplit : ∀ o, degree (e :: es) o
        = ((if e.1.1 = o then 1 else 0) + (if e.1.2 = o then 1 else 0)) + degree es o := by
      intro o
      simp [degree]
    rw [Finset.sum_congr rfl (fun o _ => hsplit o)]
    rw [Finset.sum_add_distrib, hrec, Finset.sum_add_distrib]
    rw [Finset.sum_ite_eq (Finset.range numOwners) e.1.1 (fun _ => 1),
      Finset.sum_ite_eq (Finset.range numOwners) e.1.2 (fun _ => 1)]
    rw [if_pos (Finset.mem_range.mpr (hall e (List.mem_cons_self _ _)).1),
      if_pos (Finset.mem_range.mpr (hall e (List.mem_cons_self _ _)).2)]
    simp only [List.length_cons]
    omega

/-- A cell owed by a participation is present in the corresponding column. -/
theorem mem_colSpec (o : Nat) (entries : List ((Nat × Nat) × Nat))
    (e : (Nat × Nat) × Nat) (he : e ∈ entries) :
    (e.1.1 = o → (e.1.2, e.2) ∈ colSpec o entries) ∧
      (e.1.2 = o → (e.1.1, e.2) ∈ colSpec o entries) := by
  constructor
  · intro ha
    unfold colSpec
    refine List.mem_flatMap.mpr ⟨e, he, ?_⟩
    rw [if_pos ha]
    exact List.mem_append_left _ (List.mem_cons_self _ _)
  · intro hb
    unfold colSpec
    refine List.mem_flatMap.mpr ⟨e, he, ?_⟩
    rw [if_pos hb]
    exact List.mem_append_right _ (List.mem_cons_self _ _)

/-- List access helper fact: an in-range getD is the element itself. -/
theorem lgetD_eq_getElem {α : Type} (l : List α) (i : Nat) (d : α) (h : i < l.length) :
    l.getD i d = l[i] := by
  induction l generalizing i with
  | nil => simp at h
  | cons a t ih =>
    cases i with
    | zero => rfl
    | succ j =>
      simp only [List.getD_cons_succ, List.getElem_cons_succ]
      exact ih j (Nat.lt_of_succ_lt_succ h)

/-- Every stored bond type is a valid type id. -/
theorem mem_bond_type_lt (s : BondData) (hwf : Wf s) (x : Nat)
    (hx : x ∈ s.bond_type) : x < s.n_bond_types := by
  obtain ⟨i, hi, hgetI⟩ := List.getElem_of_mem hx
  have hi2 : i < s.bonds.length := by
    have := hwf.1
    omega
  have := (hwf.2.2.2.2.1 i hi2).2.2
  rw [lgetD_eq_getElem s.bond_type i 0 hi, hgetI] at this
  exact this

/-- Mapping the first components over a zip of equal-length lists. -/
theorem zip_map_fst {α β : Type} (l1 : List α) (l2 : List β)
    (h : l1.length = l2.length) : (l1.zip l2).map (fun e => e.1) = l1 := by
  induction l1 generalizing l2 with
  | nil => rfl
  | cons a t ih =>
    cases l2 with
    | nil => simp at h
    | cons b t2 =>
      simp only [List.zip_cons_cons, List.map_cons]
      rw [ih t2 (by simpa using h)]

/-- Mapping the second components over a zip of equal-length lists. -/
theorem zip_map_snd {α β : Type} (l1 : List α) (l2 : List β)
    (h : l1.length = l2.length) : (l1.zip l2).map (fun e => e.2) = l2 := by
  induction l1 generalizing l2 with
  | nil =>
    cases l2 with
    | nil => rfl
    | cons b t2 => simp at h
  | cons a t ih =>
    cases l2 with
    | nil => simp at h
    | cons b t2 =>
      simp only [List.zip_cons_cons, List.map_cons]
      rw [ih t2 (by simpa using h)]

/-- Every successful addBond leaves the dirty flag set. -/
theorem addBond_dirty (s : BondData) (b : Bond) (tg : Nat) (s2 : BondData)
    (h : addBond s b = .ok (tg, s2)) : s2.bonds_dirty = true := by
  unfold addBond at h
  split at h
  · exact absurd h (by simp)
  · split at h
    · rw [Except.ok.injEq, Prod.mk.injEq] at h
      obtain ⟨h9, h10⟩ := h
      rw [← h10]
    · rw [Except.ok.injEq, Prod.mk.injEq] at h
      obtain ⟨h9, h10⟩ := h
      rw [← h10]

/-- Every successful removeBond leaves the dirty flag set. -/
theorem removeBond_dirty (s : BondData) (tg : Nat) (s2 : BondData)
    (h : removeBond s tg = .ok s2) : s2.bonds_dirty = true := by
  simp only [removeBond] at h
  split at h
  · exact absurd h (by simp)
  · split at h
    · rw [Except.ok.injEq] at h
      rw [← h]
    · rw [Except.ok.injEq] at h
      rw [← h]

/-- The mirror accessor never touches the host-side table fields. -/
theorem getGPUBondList_frame (numOwners : Nat) (s : BondData) :
    (getGPUBondList numOwners s).bonds = s.bonds ∧
      (getGPUBondList numOwners s).bond_type = s.bond_type ∧
      (getGPUBondList numOwners s).tags = s.tags ∧
      (getGPUBondList numOwners s).deleted_tags = s.deleted_tags ∧
      (getGPUBondList numOwners s).bond_rtag = s.bond_rtag ∧
      (getGPUBondList numOwners s).n_bond_types = s.n_bond_types ∧
      (getGPUBondList numOwners s).bond_type_mapping = s.bond_type_mapping := by
  unfold getGPUBondList
  split
  · exact ⟨rfl, rfl, rfl, rfl, rfl, rfl, rfl⟩
  · exact ⟨rfl, rfl, rfl, rfl, rfl, rfl, rfl⟩

/-- The unordered-pair normal form of a participant pair. -/
def normPair (p : Nat × Nat) : Nat × Nat :=
  if p.1 ≤ p.2 then p else (p.2, p.1)

/-- The multiset of (type, unordered pair) values held in the dense table. -/
def bondValues (s : BondData) : Multiset (Nat × (Nat × Nat)) :=
  ↑(s.bond_type.zip (s.bonds.map normPair))

/-- Decidable equality for Except results, so that concrete operation results
can be checked by evaluation. -/
instance instDecEqExcept {ε α : Type} [DecidableEq ε] [DecidableEq α] :
    DecidableEq (Except ε α) := by
  intro a b
  cases a with
  | error e1 =>
    cases b with
    | error e2 =>
      exact decidable_of_iff (e1 = e2)
        ⟨fun h => by rw [h], fun h => by rw [Except.error.injEq] at h; exact h⟩
    | ok v2 => exact isFalse (fun h => Except.noConfusion h)
  | ok v1 =>
    cases b with
    | error e2 => exact isFalse (fun h => Except.noConfusion h)
    | ok v2 =>
      exact decidable_of_iff (v1 = v2)
        ⟨fun h => by rw [h], fun h => by rw [Except.ok.injEq] at h; exact h⟩

/-- Worked example state: a table constructed with one bond type. -/
def exS0 : BondData := BondData.init 1 ["A"]

/-- Worked example state after adding bond (0, 0, 1), tag 0. -/
def exS1 : BondData := applyOp exS0 (.add ⟨0, 0, 1⟩)

/-- Worked example state after also adding bond (0, 1, 2), tag 1. -/
def exS2 : BondData := applyOp exS1 (.add ⟨0, 1, 2⟩)

/-- Worked example state after also adding bond (0, 2, 3), tag 2. -/
def exS3 : BondData := applyOp exS2 (.add ⟨0, 2, 3⟩)

/-- Worked example state after also removing tag 0. -/
def exS4 : BondData := applyOp exS3 (.remove 0)

/-- Worked example state after also removing tag 2: its recycle stack holds
[2, 0] (top first). -/
def exS5 : BondData := applyOp exS4 (.remove 2)

example : exS5.deleted_tags = [2, 0] := by decide
example : exS5.bonds = [(1, 2)] := by decide

/-- C1: Tag stability — the tag returned by addBond resolves via getBondByTag
to the very relation (same type, a, b) that was added, from the moment
addBond returns, across any sequence of further adds and removes of other
tags, until removeBond is called on that tag (here: as long as no operation
in the sequence is a remove of that tag, within the 32-bit tag budget). -/
theorem C1_tag_stability (s : BondData) (b : Bond) (tg : Nat) (s2 : BondData)
    (ops : List Op) (hwf : Wf s) (hadd : addBond s b = .ok (tg, s2))
    (hcap : getNumBonds s + 1 + ops.length < NO_BOND)
    (hops : ∀ op ∈ ops, op ≠ Op.remove tg) :
    getBondByTag s2 tg = .ok ⟨b.type, b.a, b.b⟩ ∧
      getBondByTag (applyOps s2 ops) tg = .ok ⟨b.type, b.a, b.b⟩ := by
  have hres : getBondByTag s2 tg = .ok ⟨b.type, b.a, b.b⟩ :=
    getBondByTag_after_add s b tg s2 hwf hadd
  have hcap1 : s.bonds.length + 1 < NO_BOND := by
    simp only [getNumBonds] at hcap
    omega
  obtain ⟨hwf2, hlen2, _⟩ := Wf_addBond s b tg s2 hwf hcap1 hadd
  refine ⟨hres, applyOps_stable s2 ops tg _ hwf2 ?_ hres hops⟩
  simp only [getNumBonds] at hcap
  omega

/-- C1 witness: the concrete tag 0 issued for bond (0, 0, 1) still resolves
to it after an unrelated add. -/
theorem C1_witness :
    getBondByTag (applyOps exS1 [.add ⟨0, 5, 6⟩]) 0 = .ok ⟨0, 0, 1⟩ :=
  (C1_tag_stability exS0 ⟨0, 0, 1⟩ 0 exS1 [.add ⟨0, 5, 6⟩] (by decide) (by decide)
    (by decide) (by decide)).2

/-- C2: Remove semantics — removeBond fails NotFound on a sentinel entry or
an out-of-range tag; on a live tag it decreases the count by exactly one,
sets the entry to the sentinel, pushes the tag on the recycle pool, moves the
formerly-last relation into the vacated slot (updating its reverse-lookup
entry) when the vacated slot is not the last, and leaves every surviving tag
resolving to an unchanged relation value. -/
theorem C2_remove_semantics (s : BondData) (t : Nat) (hwf : Wf s) :
    (rtagLookup s t = NO_BOND → removeBond s t = .error .NotFound) ∧
    (s.bond_rtag.length ≤ t → removeBond s t = .error .NotFound) ∧
    (rtagLookup s t ≠ NO_BOND →
      ∃ s2, removeBond s t = .ok s2 ∧
        getNumBonds s2 + 1 = getNumBonds s ∧
        rtagLookup s2 t = NO_BOND ∧
        s2.deleted_tags = t :: s.deleted_tags ∧
        (rtagLookup s t ≠ getNumBonds s - 1 →
          s2.bonds.getD (rtagLookup s t) (0, 0)
              = s.bonds.getD (getNumBonds s - 1) (0, 0) ∧
            s2.bond_type.getD (rtagLookup s t) 0
              = s.bond_type.getD (getNumBonds s - 1) 0 ∧
            rtagLookup s2 (s.tags.getD (getNumBonds s - 1) 0) = rtagLookup s t) ∧
        (∀ u, u ≠ t → rtagLookup s u ≠ NO_BOND →
          getBondByTag s2 u = getBondByTag s u)) := by
  refine ⟨removeBond_notFound s t, ?_, ?_⟩
  · intro hge
    exact removeBond_notFound s t (lgetD_ge _ _ _ hge)
  · intro hlive
    obtain ⟨s2, heq, _, hlen, hrt, hdel, _, hsurv, hmove⟩ := removeBond_spec s t hwf hlive
    exact ⟨s2, heq, hlen, hrt, hdel, hmove, fun u hu hul => (hsurv u hu hul).2⟩

/-- C2 witness: removing a never-issued tag from a concrete table fails
NotFound. -/
theorem C2_witness : removeBond exS3 5 = .error .NotFound :=
  (C2_remove_semantics exS3 5 (by decide)).1 (by decide)

/-- C3: Mirror correctness — immediately after a rebuild the mirror height is
the maximum owner degree, the mirror has one column per owner, each owner s
column is exactly its owed (partner, type) cell list, whose length is the
owner s degree, the columns hold 2R cells in total, and every dense relation
appears in the column of each of its two participants with the correct
partner and type; the lazy accessor installs exactly this table when the
dirty flag is set. -/
theorem C3_mirror_correct (numOwners : Nat) (s : BondData)
    (hall : ∀ e ∈ s.bonds.zip s.bond_type, e.1.1 < numOwners ∧ e.1.2 < numOwners) :
    (updateBondTable numOwners s).gpu_height
        = maxDegree numOwners (s.bonds.zip s.bond_type) ∧
      (updateBondTable numOwners s).gpu_bondlist.length = numOwners ∧
      (∀ o, (updateBondTable numOwners s).gpu_bondlist.getD o []
        = colSpec o (s.bonds.zip s.bond_type)) ∧
      (∀ o, ((updateBondTable numOwners s).gpu_bondlist.getD o []).length
        = degree (s.bonds.zip s.bond_type) o) ∧
      (Finset.range numOwners).sum
          (fun o => ((updateBondTable numOwners s).gpu_bondlist.getD o []).length)
        = 2 * (s.bonds.zip s.bond_type).length ∧
      (∀ e ∈ s.bonds.zip s.bond_type,
        (e.1.2, e.2) ∈ (updateBondTable numOwners s).gpu_bondlist.getD e.1.1 [] ∧
          (e.1.1, e.2) ∈ (updateBondTable numOwners s).gpu_bondlist.getD e.1.2 []) ∧
      (s.bonds_dirty = true → getGPUBondList numOwners s
        = { updateBondTable numOwners s with bonds_dirty := false }) := by
  have hcol : ∀ o, (updateBondTable numOwners s).gpu_bondlist.getD o []
      = colSpec o (s.bonds.zip s.bond_type) := by
    intro o
    simp only [updateBondTable]
    exact mirrorColumns_getD numOwners _ o hall
  refine ⟨?_, ?_, hcol, ?_, ?_, ?_, ?_⟩
  · simp only [updateBondTable]
    rw [degCounts_eq numOwners _ hall]
    rfl
  · simp only [updateBondTable]
    exact mirrorColumns_length numOwners _
  · intro o
    rw [hcol o]
    exact colSpec_length o _
  · rw [Finset.sum_congr rfl (fun o _ => by rw [hcol o, colSpec_length])]
    exact sum_degree numOwners _ hall
  · intro e he
    obtain ⟨hma, hmb⟩ := mem_colSpec e.1.1 (s.bonds.zip s.bond_type) e he
      |>.1 rfl, mem_colSpec e.1.2 (s.bonds.zip s.bond_type) e he |>.2 rfl
    rw [hcol e.1.1, hcol e.1.2]
    exact ⟨hma, hmb⟩
  · intro hd
    unfold getGPUBondList
    rw [if_pos hd]

/-- C3 witness: the rebuilt mirror of a concrete three-bond table over four
owners has height equal to the maximum degree. -/
theorem C3_witness :
    (updateBondTable 4 exS3).gpu_height = maxDegree 4 (exS3.bonds.zip exS3.bond_type) :=
  (C3_mirror_correct 4 exS3 (by decide)).1

/-- C4: Round trip — importing the snapshot exported from a consistent table
yields a table with the same dense relation lists (hence the same multiset of
(type, unordered pair) values), with tags reassigned from scratch
sequentially. -/
theorem C4_round_trip (s : BondData) (hwf : Wf s) :
    bondValues (initializeFromSnapshot s (takeSnapshot s)) = bondValues s ∧
      (initializeFromSnapshot s (takeSnapshot s)).bonds = s.bonds ∧
      (initializeFromSnapshot s (takeSnapshot s)).bond_type = s.bond_type ∧
      (initializeFromSnapshot s (takeSnapshot s)).tags = List.range (getNumBonds s) := by
  obtain ⟨hb, ht, htg, hr, hd, hn, hm, hdirty⟩ :=
    initializeFromSnapshot_fields s (takeSnapshot s)
  have h1 : s.bond_type.length = s.bonds.length := hwf.1
  have hfilter : (s.bond_type.zip s.bonds).filter
      (fun e => decide (e.1 < s.n_bond_types)) = s.bond_type.zip s.bonds := by
    rw [List.filter_eq_self]
    intro e he
    exact decide_eq_true (mem_bond_type_lt s hwf e.1 (List.of_mem_zip he).1)
  have hbonds : (initializeFromSnapshot s (takeSnapshot s)).bonds = s.bonds := by
    rw [hb]
    show ((s.bond_type.zip s.bonds).filter
      (fun e => decide (e.1 < s.n_bond_types))).map (fun e => e.2) = s.bonds
    rw [hfilter]
    exact zip_map_snd s.bond_type s.bonds h1
  have htypes : (initializeFromSnapshot s (takeSnapshot s)).bond_type = s.bond_type := by
    rw [ht]
    show ((s.bond_type.zip s.bonds).filter
      (fun e => decide (e.1 < s.n_bond_types))).map (fun e => e.1) = s.bond_type
    rw [hfilter]
    exact zip_map_fst s.bond_type s.bonds h1
  refine ⟨?_, hbonds, htypes, ?_⟩
  · unfold bondValues
    rw [hbonds, htypes]
  · rw [htg]
    show List.range ((s.bond_type.zip s.bonds).filter
      (fun e => decide (e.1 < s.n_bond_types))).length = List.range (getNumBonds s)
    rw [hfilter, List.length_zip, h1, Nat.min_self]
    rfl

/-- C4 witness: the concrete one-bond table round-trips with sequential
tags. -/
theorem C4_witness :
    (initializeFromSnapshot exS5 (takeSnapshot exS5)).bonds = exS5.bonds ∧
      (initializeFromSnapshot exS5 (takeSnapshot exS5)).tags
        = List.range (getNumBonds exS5) :=
  ⟨(C4_round_trip exS5 (by decide)).2.1, (C4_round_trip exS5 (by decide)).2.2.2⟩

/-- C5 counterexample: a concrete reachable state whose recycle pool is
[2, 0] (top first); addBond issues tag 2, the top of the stack, although tag
0 — strictly smaller — is also available in the pool, refuting "the tag
issued is the smallest available tag in the pool". -/
theorem C5_counterexample :
    exS5.deleted_tags = [2, 0] ∧
      (addBond exS5 ⟨0, 4, 5⟩).toOption.map Prod.fst = some 2 ∧
      0 ∈ exS5.deleted_tags ∧ (0 : Nat) < 2 := by decide

/-- C5 (amended): Tag allocation order — with a non-empty recycle pool,
addBond reuses the most recently released tag (the top of the LIFO stack
m_deleted_tags), which need not be the smallest available; with an empty
pool it issues the next sequential integer — the size of the TagIndex, one
greater than every tag issued before. -/
theorem C5_tag_allocation (s : BondData) (b : Bond) (hwf : Wf s)
    (hty : b.type < s.n_bond_types) :
    (∀ tg rest, s.deleted_tags = tg :: rest →
      ∃ s2, addBond s b = .ok (tg, s2) ∧ s2.deleted_tags = rest) ∧
    (s.deleted_tags = [] →
      ∃ s2, addBond s b = .ok (getNumBonds s, s2) ∧
        getNumBonds s = s.bond_rtag.length ∧
        (∀ i, i < getNumBonds s → s.tags.getD i 0 < getNumBonds s) ∧
        (∀ d, d ∈ s.deleted_tags → d < getNumBonds s)) := by
  constructor
  · intro tg rest hpool
    exact ⟨_, addBond_pool s b tg rest hty hpool, rfl⟩
  · intro hpool
    have hrlen : s.bonds.length = s.bond_rtag.length := by
      have h3 := hwf.2.2.1
      rw [hpool] at h3
      simpa using h3
    refine ⟨_, addBond_fresh s b hty hpool, hrlen, ?_, ?_⟩
    · intro i hi
      have := (hwf.2.2.2.2.1 i hi).1
      simp only [getNumBonds]
      omega
    · intro d hd
      rw [hpool] at hd
      simp at hd

/-- C5 witness: on the concrete pool [2, 0], addBond issues the stack top 2
and leaves the pool [0]. -/
theorem C5_witness :
    addBond exS5 ⟨0, 4, 5⟩ = .ok (2, applyOp exS5 (.add ⟨0, 4, 5⟩)) ∧
      (applyOp exS5 (.add ⟨0, 4, 5⟩)).deleted_tags = [0] := by
  obtain ⟨s2, h1, h2⟩ :=
    (C5_tag_allocation exS5 ⟨0, 4, 5⟩ (by decide) (by decide)).1 2 [0] (by decide)
  have h3 : applyOp exS5 (.add ⟨0, 4, 5⟩) = s2 := by
    simp only [applyOp, h1]
  constructor
  · rw [h3]
    exact h1
  · rw [h3]
    exact h2

/-- C6: Sentinel integrity — in every reachable state, a tag that was never
issued (beyond the TagIndex) or that sits in the recycle pool reads the
sentinel NO_BOND and fails getBondByTag with NotFound; any sentinel entry
fails NotFound; and TagIndex[tag] = i (for a dense index i) holds exactly
when dense slot i currently holds the relation identified by tag. -/
theorem C6_sentinel_integrity (s : BondData) (h : Reachable s) :
    (∀ tg, s.bond_rtag.length ≤ tg ∨ tg ∈ s.deleted_tags →
      rtagLookup s tg = NO_BOND ∧ getBondByTag s tg = .error .NotFound) ∧
    (∀ tg, rtagLookup s tg = NO_BOND → getBondByTag s tg = .error .NotFound) ∧
    (∀ tg i, i < getNumBonds s →
      (rtagLookup s tg = i ↔ tg < s.bond_rtag.length ∧ s.tags.getD i 0 = tg)) := by
  obtain ⟨h1, h2, h3, h4, h5, h6, h7, h8⟩ := reachable_wf s h
  have hdead : ∀ tg, rtagLookup s tg = NO_BOND →
      getBondByTag s tg = .error .NotFound := by
    intro tg hd
    simp only [getBondByTag]
    rw [if_pos hd]
  refine ⟨?_, hdead, ?_⟩
  · intro tg hcase
    rcases hcase with hge | hmem
    · have hx : rtagLookup s tg = NO_BOND := lgetD_ge _ _ _ hge
      exact ⟨hx, hdead tg hx⟩
    · have hx : rtagLookup s tg = NO_BOND := (h7 tg hmem).2
      exact ⟨hx, hdead tg hx⟩
  · intro tg i hi
    simp only [getNumBonds] at hi
    constructor
    · intro heq
      simp only [rtagLookup] at heq
      have htlt : tg < s.bond_rtag.length := by
        by_contra hge
        have := lgetD_ge s.bond_rtag NO_BOND tg (Nat.le_of_not_lt hge)
        omega
      have hne : s.bond_rtag.getD tg NO_BOND ≠ NO_BOND := by omega
      have hx := (h6 tg htlt hne).2
      rw [heq] at hx
      exact ⟨htlt, hx⟩
    · rintro ⟨htlt, htag⟩
      simp only [rtagLookup]
      rw [← htag]
      exact (h5 i hi).2.1

/-- C6 witness: in the concrete reachable state exS5 the removed tag 0 reads
the sentinel and getBondByTag on it fails NotFound. -/
theorem C6_witness :
    rtagLookup exS5 0 = NO_BOND ∧ getBondByTag exS5 0 = .error .NotFound := by
  have r0 : Reachable exS0 := .start 1 ["A"]
  have r1 : Reachable exS1 := .addOk exS0 ⟨0, 0, 1⟩ 0 exS1 r0 (by decide) (by decide)
  have r2 : Reachable exS2 := .addOk exS1 ⟨0, 1, 2⟩ 1 exS2 r1 (by decide) (by decide)
  have r3 : Reachable exS3 := .addOk exS2 ⟨0, 2, 3⟩ 2 exS3 r2 (by decide) (by decide)
  have r4 : Reachable exS4 := .removeOk exS3 0 exS4 r3 (by decide)
  have r5 : Reachable exS5 := .removeOk exS4 2 exS5 r4 (by decide)
  exact (C6_sentinel_integrity exS5 r5).1 0 (Or.inr (by decide))

/-- C7: Lazy rebuild idempotence — the mirror accessor rebuilds exactly when
the dirty flag is set, clears the flag afterwards, and a second call with no
mutation in between leaves all state unchanged (it is the identity on the
already-clean state). -/
theorem C7_lazy_rebuild (numOwners : Nat) (s : BondData) :
    (s.bonds_dirty = false → getGPUBondList numOwners s = s) ∧
    (s.bonds_dirty = true → getGPUBondList numOwners s
      = { updateBondTable numOwners s with bonds_dirty := false }) ∧
    (getGPUBondList numOwners s).bonds_dirty = false ∧
    getGPUBondList numOwners (getGPUBondList numOwners s) = getGPUBondList numOwners s := by
  cases hd : s.bonds_dirty with
  | false =>
    have hgs : getGPUBondList numOwners s = s := by
      unfold getGPUBondList
      rw [if_neg (by rw [hd]; simp)]
    refine ⟨fun _ => hgs, fun hc => absurd hc (by simp), ?_, ?_⟩
    · rw [hgs, hd]
    · rw [hgs, hgs]
  | true =>
    have hgs : getGPUBondList numOwners s
        = { updateBondTable numOwners s with bonds_dirty := false } := by
      unfold getGPUBondList
      rw [if_pos hd]
    refine ⟨fun hc => absurd hc (by simp), fun _ => hgs, ?_, ?_⟩
    · rw [hgs]
    · rw [hgs]
      unfold getGPUBondList
      rw [if_neg (by simp)]

/-- C7 witness: on the concrete freshly constructed table (dirty), the
accessor installs the rebuilt mirror with the flag cleared, and a second call
is the identity. -/
theorem C7_witness :
    getGPUBondList 2 exS0 = { updateBondTable 2 exS0 with bonds_dirty := false } ∧
      getGPUBondList 2 (getGPUBondList 2 exS0) = getGPUBondList 2 exS0 :=
  ⟨(C7_lazy_rebuild 2 exS0).2.1 (by decide), (C7_lazy_rebuild 2 exS0).2.2.2⟩

/-- C8: Dirty-flag discipline — the flag is true at construction, set by
every successful addBond and removeBond, by the resort signal receiver
setDirty, and by a snapshot import; the mirror accessor is the only
operation that leaves it cleared, and it always does so right after the
rebuild. -/
theorem C8_dirty_discipline (n : Nat) (tm : List String) (s s2 s3 : BondData)
    (b : Bond) (tg numOwners : Nat) (snap : SnapshotBondData) :
    (BondData.init n tm).bonds_dirty = true ∧
    (addBond s b = .ok (tg, s2) → s2.bonds_dirty = true) ∧
    (removeBond s tg = .ok s3 → s3.bonds_dirty = true) ∧
    (setDirty s).bonds_dirty = true ∧
    (initializeFromSnapshot s snap).bonds_dirty = true ∧
    (getGPUBondList numOwners s).bonds_dirty = false := by
  refine ⟨rfl, addBond_dirty s b tg s2, removeBond_dirty s tg s3, rfl,
    (initializeFromSnapshot_fields s snap).2.2.2.2.2.2.2, ?_⟩
  cases hd : s.bonds_dirty with
  | false =>
    unfold getGPUBondList
    rw [if_neg (by rw [hd]; simp)]
    exact hd
  | true =>
    unfold getGPUBondList
    rw [if_pos hd]

/-- C8 witness: the concrete add leaves the flag set; the mirror accessor
leaves it cleared. -/
theorem C8_witness :
    exS1.bonds_dirty = true ∧ (getGPUBondList 2 exS0).bonds_dirty = false := by
  have h := C8_dirty_discipline 1 ["A"] exS0 exS1 exS0 ⟨0, 0, 1⟩ 0 2 ⟨[], [], []⟩
  exact ⟨h.2.1 (by decide), h.2.2.2.2.2⟩

/-- C9: Bounds-checked dense access — getBond succeeds exactly on indices
inside [0, count) and fails IndexOutOfRange on every index outside. -/
theorem C9_bounds_checked (s : BondData) (i : Nat) (hwf : Wf s) :
    ((∃ b, getBond s i = .ok b) ↔ i < getNumBonds s) ∧
    (getNumBonds s ≤ i → getBond s i = .error .IndexOutOfRange) := by
  have h1 : s.bond_type.length = s.bonds.length := hwf.1
  constructor
  · constructor
    · rintro ⟨b, hb⟩
      unfold getBond at hb
      split at hb
      · next hcond => exact hcond.1
      · exact absurd hb (by simp)
    · intro hi
      simp only [getNumBonds] at hi
      exact ⟨_, by unfold getBond; rw [if_pos ⟨hi, by omega⟩]⟩
  · intro hi
    simp only [getNumBonds] at hi
    unfold getBond
    rw [if_neg (by rintro ⟨hA, _⟩; omega)]

/-- C9 witness: index 7 on the concrete three-bond table fails
IndexOutOfRange. -/
theorem C9_witness : getBond exS3 7 = .error .IndexOutOfRange :=
  (C9_bounds_checked exS3 7 (by decide)).2 (by decide)

/-- State-passing embedding of the const accessor getNumBonds of BondData.h:
it reads m_bonds.size() and leaves the object untouched. -/
def getNumBondsM (s : BondData) : Nat × BondData := (getNumBonds s, s)

/-- State-passing embedding of the const accessor getBond of BondData.h. -/
def getBondM (i : Nat) (s : BondData) : Except TableError Bond × BondData :=
  (getBond s i, s)

/-- State-passing embedding of the const accessor getBondByTag of
BondData.h. -/
def getBondByTagM (tg : Nat) (s : BondData) : Except TableError Bond × BondData :=
  (getBondByTag s tg, s)

/-- State-passing embedding of the const accessor getNBondTypes of
BondData.h. -/
def getNBondTypesM (s : BondData) : Nat × BondData := (getNBondTypes s, s)

/-- State-passing embedding of the const accessor getBondTags of BondData.h:
it returns the m_tags array. -/
def getBondTagsM (s : BondData) : List Nat × BondData := (s.tags, s)

/-- State-passing embedding of the const accessor getBondRTags of BondData.h:
it returns the m_bond_rtag array. -/
def getBondRTagsM (s : BondData) : List Nat × BondData := (s.bond_rtag, s)

/-- C10: Read accessors are pure — each of the six read accessors returns the
table state unchanged (they are const in BondData.h and, in this embedding,
return the input state); the dirty flag is set only by addBond, removeBond,
the resort signal receiver setDirty and a snapshot import, while the mirror
accessor (which is not one of the read accessors) never touches the dense
arrays, the tag arrays or the recycle pool. -/
theorem C10_read_accessors_pure (s s2 s3 : BondData) (b : Bond)
    (i tg tg2 numOwners : Nat) (snap : SnapshotBondData) :
    (getNumBondsM s).2 = s ∧ (getBondM i s).2 = s ∧ (getBondByTagM tg s).2 = s ∧
    (getNBondTypesM s).2 = s ∧ (getBondTagsM s).2 = s ∧ (getBondRTagsM s).2 = s ∧
    (addBond s b = .ok (tg2, s2) → s2.bonds_dirty = true) ∧
    (removeBond s tg = .ok s3 → s3.bonds_dirty = true) ∧
    (setDirty s).bonds_dirty = true ∧
    (initializeFromSnapshot s snap).bonds_dirty = true ∧
    (getGPUBondList numOwners s).bonds = s.bonds ∧
    (getGPUBondList numOwners s).bond_type = s.bond_type ∧
    (getGPUBondList numOwners s).tags = s.tags ∧
    (getGPUBondList numOwners s).deleted_tags = s.deleted_tags ∧
    (getGPUBondList numOwners s).bond_rtag = s.bond_rtag := by
  obtain ⟨f1, f2, f3, f4, f5, _, _⟩ := getGPUBondList_frame numOwners s
  exact ⟨rfl, rfl, rfl, rfl, rfl, rfl, addBond_dirty s b tg2 s2,
    removeBond_dirty s tg s3, rfl,
    (initializeFromSnapshot_fields s snap).2.2.2.2.2.2.2, f1, f2, f3, f4, f5⟩

/-- C10 witness: a concrete bounds-checked read leaves the table unchanged,
and a concrete mirror access leaves the dense bond array unchanged. -/
theorem C10_witness :
    (getBondM 1 exS3).2 = exS3 ∧ (getGPUBondList 4 exS3).bonds = exS3.bonds := by
  have h := C10_read_accessors_pure exS3 exS3 exS3 ⟨0, 0, 1⟩ 1 0 0 4 ⟨[], [], []⟩
  exact ⟨h.2.1, h.2.2.2.2.2.2.2.2.2.2.1⟩
